import Mathlib

/-!
Shallow embedding of the `webscraping` repository (src/scraper.py,
src/processor.py, src/main.py).

Modelling conventions:
* Pure Python string operations are carried out over `List Char`.
* Python floats are modelled by `ℚ`; every numeric constant occurring in the
  code (206.835, 1.015, 84.6, 1.5, 1/20, 1/10, ...) is an exact decimal, so
  this is faithful for the order/clamping facts proved here.
* External collaborators (urllib's `urlparse`/`urljoin`, the `requests`
  session, BeautifulSoup's DOM observations, NLTK's tokenizers/taggers and
  stop-word list, the wall clock) are modelled as function parameters or
  record fields holding their observable outputs.
* A Python exception escaping a function is modelled by `Option` (`none`).
* Python `set` iteration order is nondeterministic; it is modelled by lists
  plus an arbitrary quantified choice function (for the crawl frontier) or by
  first-occurrence order (for `list(set(links))`), which only fixes an order
  the code leaves unspecified.
* `str.lower` / `Char.toLower` and `str.isalpha` / `Char.isAlpha` agree on
  ASCII; the claims settled here only exercise ASCII data.
-/

namespace WebScraping

/-- Code points Python treats as whitespace (`str.isspace`, regex `\s` on
`str` patterns). -/
def pySpaceCodes : List Nat :=
  [0x09, 0x0A, 0x0B, 0x0C, 0x0D, 0x1C, 0x1D, 0x1E, 0x1F, 0x20, 0x85, 0xA0,
   0x1680, 0x2000, 0x2001, 0x2002, 0x2003, 0x2004, 0x2005, 0x2006, 0x2007,
   0x2008, 0x2009, 0x200A, 0x2028, 0x2029, 0x202F, 0x205F, 0x3000]

/-- Python whitespace test on one character. -/
def pyIsSpace (c : Char) : Bool := pySpaceCodes.contains c.toNat

/-- `str.strip()` on a character list: drop whitespace from both ends. -/
def stripChars (l : List Char) : List Char :=
  ((l.dropWhile pyIsSpace).reverse.dropWhile pyIsSpace).reverse

/-- Helper for `collapseWs`: the flag records whether the previous character
was whitespace (i.e. we are inside a run already emitted as one space). -/
def collapseWsAux : Bool → List Char → List Char
  | _, [] => []
  | prevSpace, c :: rest =>
    if pyIsSpace c then
      if prevSpace then collapseWsAux true rest
      else ' ' :: collapseWsAux true rest
    else c :: collapseWsAux false rest

/-- `re.sub(r"\s+", " ", _)`: replace every maximal whitespace run by a
single space. -/
def collapseWs (l : List Char) : List Char := collapseWsAux false l

/-- Helper for `splitWsTokens`: `cur` is the reversed token in progress. -/
def splitWsAux : List Char → List Char → List (List Char)
  | cur, [] => if cur.isEmpty then [] else [cur.reverse]
  | cur, c :: rest =>
    if pyIsSpace c then
      if cur.isEmpty then splitWsAux [] rest
      else cur.reverse :: splitWsAux [] rest
    else splitWsAux (c :: cur) rest

/-- `str.split()` (no argument) on a character list: maximal runs of
non-whitespace characters; empty tokens never occur. -/
def splitWsTokens (l : List Char) : List (List Char) := splitWsAux [] l

/-- `str.split()` on strings. -/
def pySplit (s : String) : List String :=
  (splitWsTokens s.data).map String.mk

/-- `str.strip()` on strings. -/
def pyStripStr (s : String) : String := String.mk (stripChars s.data)

/-- `str.lower()` (ASCII-faithful). -/
def pyLower (s : String) : String := String.mk (s.data.map Char.toLower)

/-- `l₂.startswith(l₁)` on character lists. -/
def startsWithChars : List Char → List Char → Bool
  | [], _ => true
  | _ :: _, [] => false
  | a :: as, b :: bs => a == b && startsWithChars as bs

/-- Python substring containment `needle in hay` on character lists. -/
def containsChars (needle : List Char) : List Char → Bool
  | [] => needle.isEmpty
  | c :: rest => startsWithChars needle (c :: rest) || containsChars needle rest

/-- Python `needle in hay` on strings. -/
def pyInStr (needle hay : String) : Bool := containsChars needle.data hay.data

/-- `s.startswith(pat)` on strings. -/
def pyStartsWith (s pat : String) : Bool := startsWithChars pat.data s.data

/-- `s.endswith(pat)` on strings. -/
def pyEndsWith (s pat : String) : Bool :=
  startsWithChars pat.data.reverse s.data.reverse

/-- `str.split(sep)` for a one-character separator, empty pieces kept
(so `"".split(".") = [""]`). -/
def splitOnChar (sep : Char) : List Char → List (List Char)
  | [] => [[]]
  | c :: rest =>
    let r := splitOnChar sep rest
    if c = sep then [] :: r
    else (c :: r.headD []) :: r.tail

/-- `sep.join(parts)` on character lists. -/
def joinWith (sep : List Char) : List (List Char) → List Char
  | [] => []
  | [x] => x
  | x :: y :: rest => x ++ sep ++ joinWith sep (y :: rest)

/-- `sep.join(parts)` on strings. -/
def pyJoin (sep : String) (parts : List String) : String :=
  String.mk (joinWith sep.data (parts.map (fun p => p.data)))

/-- First-occurrence deduplication; models `list(set(links))` (the set fixes
the members, not the order; we pick first-occurrence order). -/
def dedupFirst (l : List String) : List String :=
  l.foldl (fun acc x => if x ∈ acc then acc else acc ++ [x]) []

/-! ## scraper.py -/

/-- `ScrapedContent` dataclass of src/scraper.py. -/
structure ScrapedContent where
  url : String
  title : String
  headings : List String
  paragraphs : List String
  links : List String
  metadata : List (String × String)
  scraped_at : String
  word_count : Nat
  text_content : String
deriving DecidableEq

/-- `KnowledgeBase` dataclass of src/scraper.py; the `metadata` dict's four
entries are modelled as individual fields. -/
structure KnowledgeBase where
  website_url : String
  domain : String
  scraped_pages : List ScrapedContent
  total_word_count : Nat
  created_at : String
  meta_total_pages : Nat
  meta_visited_urls : Nat
  meta_max_pages_limit : Nat
  meta_delay_between_requests : ℚ

/-- `WebsiteScraper.__init__` configuration, with the urllib functions and
the wall clock as abstract collaborators (`urlparse_netloc u` stands for
`urlparse(u).netloc`, `urljoin base u` for `urljoin(base, u)`). -/
structure WebsiteScraper where
  base_url : String
  delay : ℚ
  max_pages : Nat
  urlparse_netloc : String → String
  urljoin : String → String → String
  now : String

/-- `WebsiteScraper._root_domain`: lowercase and strip the netloc, keep its
last two dot-separated labels. -/
def root_domain_of (netloc : String) : String :=
  let s := pyStripStr (pyLower netloc)
  let parts := (splitOnChar '.' s.data).map String.mk
  if 2 ≤ parts.length then
    pyJoin "." (parts.drop (parts.length - 2))
  else s

/-- `self.domain = urlparse(base_url).netloc`. -/
def WebsiteScraper.domain (S : WebsiteScraper) : String :=
  S.urlparse_netloc S.base_url

/-- `self.root_domain = self._root_domain(self.domain)`. -/
def WebsiteScraper.root_domain (S : WebsiteScraper) : String :=
  root_domain_of S.domain

/-- `WebsiteScraper.is_same_domain` (the modelled `urlparse_netloc` is total,
so the `except` branch returning `False` is unreachable here). -/
def WebsiteScraper.is_same_domain (S : WebsiteScraper) (url : String) : Bool :=
  let netloc := pyStripStr (pyLower (S.urlparse_netloc url))
  if netloc = "" then false
  else netloc == S.root_domain || pyEndsWith netloc ("." ++ S.root_domain)

/-- `WebsiteScraper.normalize_url(url, base_url) = urljoin(base_url, url)`. -/
def WebsiteScraper.normalize_url (S : WebsiteScraper) (url base_url : String) :
    String :=
  S.urljoin base_url url

/-- Printable-ASCII-or-`\n\r\t` character class kept by
`re.sub(r"[^\x20-\x7E\n\r\t]", "", _)`. -/
def keepChar (c : Char) : Bool :=
  (0x20 ≤ c.toNat && c.toNat ≤ 0x7E) || c == '\n' || c == '\r' || c == '\t'

/-- `WebsiteScraper.clean_text`: strip, collapse whitespace runs to single
spaces, then delete characters outside printable ASCII plus `\n\r\t`. -/
def clean_text (s : String) : String :=
  if s = "" then ""
  else String.mk ((collapseWs (stripChars s.data)).filter keepChar)

/-- BeautifulSoup observations of one parsed page.  `titleStr` is
`soup.title.string` (`none` when the title tag is absent or has no string —
both hit the falsy branch below).  `headingsByLevel` lists the `get_text()`
of the `h1` … `h6` tags level by level, `paragraphTexts` the `get_text()` of
the `p` tags, `hrefs` the `href` attributes of the `a[href]` tags, `metas`
the `(name, property, content)` attribute triples of the `meta` tags, and
`rawText` the result of `soup.get_text(separator="\n", strip=True)` after
the script/style/nav/footer/aside/header subtrees are decomposed. -/
structure Soup where
  titleStr : Option String
  headingsByLevel : List (List String)
  paragraphTexts : List String
  hrefs : List String
  metas : List (Option String × Option String × Option String)
  rawText : String

/-- `WebsiteScraper.extract_text_content`: the decomposition and `get_text`
are BeautifulSoup's (folded into `Soup.rawText`); the code then cleans. -/
def extract_text_content (soup : Soup) : String :=
  clean_text soup.rawText

/-- Python truthiness of an optional string (`None` and `""` are falsy). -/
def pyTruthy : Option String → Bool
  | none => false
  | some s => s ≠ ""

/-- Python dict insertion `d[k] = v` over an insertion-ordered
association list. -/
def dictInsert (acc : List (String × String)) (k v : String) :
    List (String × String) :=
  if acc.any (fun p => p.1 == k) then
    acc.map (fun p => if p.1 == k then (p.1, v) else p)
  else acc ++ [(k, v)]

/-- `WebsiteScraper.extract_structured_content`. -/
def extract_structured_content (S : WebsiteScraper) (soup : Soup)
    (url : String) : ScrapedContent :=
  let title :=
    match soup.titleStr with
    | some s => if s ≠ "" then clean_text s else "Page from " ++ url
    | none => "Page from " ++ url
  let headings :=
    soup.headingsByLevel.flatMap
      (fun hs => (hs.filter (fun h => h ≠ "")).map clean_text)
  let paragraphs :=
    (soup.paragraphTexts.map clean_text).filter
      (fun t => t ≠ "" && 10 < t.length)
  let links :=
    soup.hrefs.filterMap (fun href =>
      if href ≠ "" && !pyStartsWith href "#" && !pyStartsWith href "mailto:"
      then
        let full_url := S.normalize_url href url
        if S.is_same_domain full_url then some full_url else none
      else none)
  let metadata :=
    soup.metas.foldl (fun acc m =>
      let name := if pyTruthy m.1 then m.1 else m.2.1
      let content := m.2.2
      match name, content with
      | some n, some c => if n ≠ "" && c ≠ "" then dictInsert acc n c else acc
      | _, _ => acc) []
  let text_content := extract_text_content soup
  let word_count := if text_content ≠ "" then (pySplit text_content).length else 0
  { url := url
    title := title
    headings := headings
    paragraphs := paragraphs
    links := dedupFirst links
    metadata := metadata
    scraped_at := S.now
    word_count := word_count
    text_content := text_content }

/-- One fetched HTTP response that survived `raise_for_status`:
`content_type` is `headers.get("content-type", "")` and `body` the bytes
handed to BeautifulSoup. -/
structure HttpResponse where
  content_type : String
  body : String

/-- `WebsiteScraper.scrape_page`.  `net url` is the `session.get` +
`raise_for_status` pipeline (`none` models a `RequestException`); `parse`
is `BeautifulSoup(body, "lxml")` (`none` models a parser exception, caught
by the final `except`). -/
def scrape_page (S : WebsiteScraper) (net : String → Option HttpResponse)
    (parse : String → Option Soup) (url : String) : Option ScrapedContent :=
  match net url with
  | none => none
  | some response =>
    let content_type := pyLower response.content_type
    if !(pyInStr "text/html" content_type || pyInStr "text" content_type) then
      none
    else
      match parse response.body with
      | none => none
      | some soup => some (extract_structured_content S soup url)

/-- Mutable state of `WebsiteScraper.crawl_website`'s loop.  The Python
`set`s `visited_urls` and `to_visit_urls` are modelled as duplicate-free
lists. -/
structure CrawlState where
  visited : List String
  to_visit : List String
  scraped : List ScrapedContent
  page_count : Nat

/-- The `while` loop of `WebsiteScraper.crawl_website`, with explicit fuel
(the loop terminates because every iteration either shrinks the frontier or
increments the capped page count; any sufficiently large fuel reaches the
real exit).  `choose` resolves the nondeterministic `set.pop` by picking an
index into the frontier. -/
def crawl_loop (S : WebsiteScraper) (net : String → Option HttpResponse)
    (parse : String → Option Soup) (choose : List String → Nat) :
    Nat → CrawlState → CrawlState
  | 0, st => st
  | Nat.succ fuel, st =>
    if st.to_visit.length = 0 ∨ ¬ st.page_count < S.max_pages then st
    else
      let i := choose st.to_visit % st.to_visit.length
      let current_url := st.to_visit.getD i ""
      let rest := st.to_visit.eraseIdx i
      if current_url ∈ st.visited then
        crawl_loop S net parse choose fuel { st with to_visit := rest }
      else
        let visited' := current_url :: st.visited
        match scrape_page S net parse current_url with
        | none =>
          crawl_loop S net parse choose fuel
            { st with to_visit := rest, visited := visited' }
        | some content =>
          let fresh := content.links.filter
            (fun link => !(link ∈ visited') && !(link ∈ rest))
          crawl_loop S net parse choose fuel
            { visited := visited'
              to_visit := rest ++ fresh
              scraped := st.scraped ++ [content]
              page_count := st.page_count + 1 }

/-- Initial crawl state: empty `visited`, frontier seeded with the base
URL, no scraped content. -/
def initState (S : WebsiteScraper) : CrawlState :=
  { visited := [], to_visit := [S.base_url], scraped := [], page_count := 0 }

/-- `WebsiteScraper.crawl_website`: run the loop, then assemble the
knowledge base and its metadata. -/
def crawl_website (S : WebsiteScraper) (net : String → Option HttpResponse)
    (parse : String → Option Soup) (choose : List String → Nat)
    (fuel : Nat) : KnowledgeBase :=
  let final := crawl_loop S net parse choose fuel (initState S)
  { website_url := S.base_url
    domain := S.domain
    scraped_pages := final.scraped
    total_word_count := (final.scraped.map (fun c => c.word_count)).sum
    created_at := S.now
    meta_total_pages := final.scraped.length
    meta_visited_urls := final.visited.length
    meta_max_pages_limit := S.max_pages
    meta_delay_between_requests := S.delay }

/-! ## processor.py -/

/-- The NLTK collaborators consumed by `TextProcessor`:
`sent_tokenize` (`none` models an exception, caught by `extract_sentences`'s
fallback), `word_tokenize`, the WordNet `lemmatize`, `pos_tag` and the
English stop-word corpus. -/
structure NLP where
  sent_tokenize : String → Option (List String)
  word_tokenize : String → List String
  lemmatize : String → String
  pos_tag : List String → List (String × String)
  stop_words : List String

/-- The custom stop words `TextProcessor.__init__` adds to the corpus. -/
def customStopWords : List String :=
  ["http", "https", "www", "com", "org", "net", "html", "php", "asp",
   "click", "here", "read", "more", "contact", "home", "about", "services"]

/-- Membership in `self.stop_words` (corpus words plus the custom ones). -/
def isStopWord (N : NLP) (w : String) : Bool :=
  N.stop_words.contains w || customStopWords.contains w

/-- `word.isalpha()` (ASCII-faithful). -/
def pyIsAlpha (w : String) : Bool :=
  w ≠ "" && w.data.all Char.isAlpha

/-- `TextProcessor.extract_sentences`: tokenize into sentences, keep the
stripped ones longer than 20 characters that do not start with "http"; on a
tokenizer exception, fall back to splitting on periods, capped at 50. -/
def extract_sentences (N : NLP) (text : String) : List String :=
  match N.sent_tokenize text with
  | some sentences =>
    (sentences.map pyStripStr).filter
      (fun s => 20 < s.length && !pyStartsWith s "http")
  | none =>
    ((((splitOnChar '.' text.data).map String.mk).map pyStripStr).filter (fun s => s ≠ "")).map
      (fun s => s ++ ".") |>.take 50

/-- `collections.Counter` built from a list: pairs `(value, count)` in
first-occurrence order. -/
def addCount (acc : List (String × Nat)) (w : String) : List (String × Nat) :=
  if acc.any (fun p => p.1 == w) then
    acc.map (fun p => if p.1 == w then (p.1, p.2 + 1) else p)
  else acc ++ [(w, 1)]

/-- `Counter(l)` as an insertion-ordered association list. -/
def counterList (l : List String) : List (String × Nat) :=
  l.foldl addCount []

/-- Stable insertion (descending by key) modelling one step of Python's
stable `list.sort(key=…, reverse=True)`: a later element goes after every
already-placed element with a key that is ≥ its own. -/
def insDesc {α : Type} (key : α → ℚ) (x : α) : List α → List α
  | [] => [x]
  | y :: ys => if key x ≤ key y then y :: insDesc key x ys else x :: y :: ys

/-- Python's stable `sort(key=…, reverse=True)`. -/
def pySortDescBy {α : Type} (key : α → ℚ) (l : List α) : List α :=
  l.foldl (fun acc x => insDesc key x acc) []

/-- Stable insertion (ascending by key) for Python's stable
`list.sort(key=…)`. -/
def insAsc {α : Type} (key : α → ℚ) (x : α) : List α → List α
  | [] => [x]
  | y :: ys => if key y ≤ key x then y :: insAsc key x ys else x :: y :: ys

/-- Python's stable `sort(key=…)` (ascending). -/
def pySortAscBy {α : Type} (key : α → ℚ) (l : List α) : List α :=
  l.foldl (fun acc x => insAsc key x acc) []

/-- `Counter.most_common(n)`: sort the counts descending (stably, so ties
keep first-occurrence order) and take the first `n`. -/
def mostCommon (n : Nat) (counts : List (String × Nat)) :
    List (String × Nat) :=
  (pySortDescBy (fun p => (p.2 : ℚ)) counts).take n

/-- `TextProcessor.extract_keywords` (the modelled tokenizer is total, so
the `except` branch returning `[]` is unreachable here). -/
def extract_keywords (N : NLP) (text : String) (max_keywords : Nat) :
    List String :=
  let words := N.word_tokenize (pyLower text)
  let filtered_words := words.filter
    (fun w => pyIsAlpha w && !isStopWord N w && 2 < w.length)
  let lemmatized_words := filtered_words.map N.lemmatize
  (mostCommon max_keywords (counterList lemmatized_words)).map (fun p => p.1)

/-- The vowels of `TextProcessor.count_syllables`. -/
def sylVowels : List Char := ['a', 'e', 'i', 'o', 'u', 'y']

/-- Count the indices `i ≥ 1` with `w[i]` a vowel and `w[i-1]` not. -/
def vowelRunStarts : List Char → Nat
  | [] => 0
  | [_] => 0
  | a :: b :: rest =>
    (if sylVowels.contains b && !sylVowels.contains a then 1 else 0) +
      vowelRunStarts (b :: rest)

/-- `TextProcessor.count_syllables`.  On the empty word the Python code
raises `IndexError` (`word[0]`); callers model that case as `none` before
ever calling this, so the `[]` branch here is unreachable. -/
def count_syllables (word : String) : Int :=
  let w := (pyLower word).data
  match w with
  | [] => 1
  | c :: _ =>
    let start : Int := if sylVowels.contains c then 1 else 0
    let runs : Int := vowelRunStarts w
    let sub : Int := if pyEndsWith (String.mk w) "e" then 1 else 0
    max 1 (start + runs - sub)

/-- `TextProcessor.calculate_readability`.  `none` models the uncaught
`ZeroDivisionError` (sentences but no words) or `IndexError` (an empty word
reaching `count_syllables`); otherwise the Flesch value clamped by
`max(0, min(100, _))`. -/
def calculate_readability (N : NLP) (text : String) : Option ℚ :=
  let sentences := extract_sentences N text
  let words := sentences.flatMap N.word_tokenize
  if sentences.length = 0 then some 0
  else if words.length = 0 then none
  else if words.any (fun w => w == "") then none
  else
    let avg_words_per_sentence : ℚ :=
      (words.length : ℚ) / (sentences.length : ℚ)
    let avg_syllables_per_word : ℚ :=
      ((words.map (fun w => count_syllables w)).sum : ℚ) / (words.length : ℚ)
    let readability : ℚ :=
      206.835 - 1.015 * avg_words_per_sentence - 84.6 * avg_syllables_per_word
    some (max 0 (min 100 readability))

/-- The per-sentence score of `TextProcessor.generate_summary`:
`1/(i+1) + min(len(sent.split())/20, 1) + len(extract_keywords(sent, 5))/10`. -/
def sentenceScoreAt (N : NLP) (i : Nat) (sent : String) : ℚ :=
  let position_score : ℚ := 1 / ((i : ℚ) + 1)
  let length_score : ℚ := min (((pySplit sent).length : ℚ) / 20) 1
  let keyword_score : ℚ := ((extract_keywords N sent 5).length : ℚ) / 10
  position_score + length_score + keyword_score

/-- `{sent: i for i, sent in enumerate(sentences)}.get(x, 999)`: the dict
comprehension keeps the LAST index of a duplicated sentence. -/
def sentenceDictGet (sentences : List String) (x : String) : ℚ :=
  sentences.enum.foldl (fun acc p => if p.2 == x then (p.1 : ℚ) else acc) 999

/-- The selection pipeline of `TextProcessor.generate_summary`'s long
branch: score each sentence, stable-sort descending by score, keep the first
`max_sentences`, then stable-sort the kept sentences ascending by their
(last-occurrence) position in the document. -/
def summarySelection (N : NLP) (sentences : List String)
    (max_sentences : Nat) : List String :=
  let scored_sentences :=
    sentences.enum.map (fun p => (sentenceScoreAt N p.1 p.2, p.2))
  let sorted_scored := pySortDescBy (fun q => q.1) scored_sentences
  let top_sentences := (sorted_scored.take max_sentences).map (fun q => q.2)
  pySortAscBy (fun s => sentenceDictGet sentences s) top_sentences

/-- `TextProcessor.generate_summary`. -/
def generate_summary (N : NLP) (text : String) (max_sentences : Nat) :
    String :=
  let sentences := extract_sentences N text
  if sentences.length ≤ max_sentences then pyJoin " " sentences
  else pyJoin " " (summarySelection N sentences max_sentences)

/-- Noun/adjective tag test of `TextProcessor.extract_key_phrases`. -/
def isPhraseTag (tag : String) : Bool :=
  pyStartsWith tag "NN" || pyStartsWith tag "JJ"

/-- The `current_phrase` accumulation loop over one tagged sentence. -/
def collectPhrases (tagged : List (String × String)) : List String :=
  let step := tagged.foldl
    (fun (acc : List String × List String) wt =>
      if isPhraseTag wt.2 then (acc.1, acc.2 ++ [wt.1])
      else if 2 ≤ acc.2.length then (acc.1 ++ [pyJoin " " acc.2], [])
      else (acc.1, []))
    ([], [])
  if 2 ≤ step.2.length then step.1 ++ [pyJoin " " step.2] else step.1

/-- `TextProcessor.extract_key_phrases`. -/
def extract_key_phrases (N : NLP) (text : String) (max_phrases : Nat) :
    List String :=
  let sentences := extract_sentences N text
  let phrases := sentences.flatMap
    (fun sentence => collectPhrases (N.pos_tag (N.word_tokenize sentence)))
  (mostCommon max_phrases (counterList phrases)).map (fun p => p.1)

/-- `ProcessedContent` dataclass of src/processor.py (`word_frequencies`
is the insertion-ordered dict built from `most_common(50)`). -/
structure ProcessedContent where
  original_content : ScrapedContent
  sentences : List String
  keywords : List String
  word_frequencies : List (String × Nat)
  summary : String
  key_phrases : List String
  readability_score : Option ℚ
deriving DecidableEq

/-- `TextProcessor.process_content`. -/
def process_content (N : NLP) (content : ScrapedContent) : ProcessedContent :=
  let text := content.text_content
  if text = "" then
    { original_content := content
      sentences := []
      keywords := []
      word_frequencies := []
      summary := ""
      key_phrases := []
      readability_score := some 0 }
  else
    let sentences := extract_sentences N text
    let keywords := extract_keywords N text 20
    let words := sentences.flatMap (fun sent =>
      (N.word_tokenize (pyLower sent)).filter
        (fun w => pyIsAlpha w && !isStopWord N w && 2 < w.length))
    let word_frequencies := mostCommon 50 (counterList words)
    { original_content := content
      sentences := sentences
      keywords := keywords
      word_frequencies := word_frequencies
      summary := generate_summary N text 5
      key_phrases := extract_key_phrases N text 10
      readability_score := calculate_readability N text }

/-- Pointwise update of the `defaultdict(list)` used by the search index. -/
def addIdx (m : String → List Nat) (k : String) (i : Nat) :
    String → List Nat :=
  fun q => if q = k then m q ++ [i] else m q

/-- One iteration of `build_search_index`'s outer loop: index page `p.2`
(at position `p.1`) under each of its lowercased keywords and under each
space-joined multi-word key phrase. -/
def bsiStep (m : String → List Nat) (p : Nat × ProcessedContent) :
    String → List Nat :=
  let keywordStep := p.2.keywords.foldl
    (fun m' kw => addIdx m' (pyLower kw) p.1) m
  p.2.key_phrases.foldl
    (fun m' phrase =>
      let phrase_words := pySplit (pyLower phrase)
      if 2 ≤ phrase_words.length then
        addIdx m' (pyJoin " " phrase_words) p.1
      else m')
    keywordStep

/-- `TextProcessor.build_search_index`: the `defaultdict(list)` is modelled
as a total function that is `[]` away from the touched keys. -/
def build_search_index (processed_content : List ProcessedContent) :
    String → List Nat :=
  processed_content.enum.foldl bsiStep (fun _ => [])

/-- `EnhancedKnowledgeBase` (the fields the settled claims touch). -/
structure EnhancedKnowledgeBase where
  original_kb : KnowledgeBase
  processed_content : List ProcessedContent
  global_keywords : List String
  search_index : String → List Nat
  processed_at : String

/-- The per-page score of `TextProcessor.search_kb`: per query word, +2 for
a keyword hit and +3 for a title-substring hit; +1.5 per key phrase
containing some query word; +1 if some query word occurs in the page
text. -/
def page_score (query_words : List String) (c : ProcessedContent) : ℚ :=
  let wordPart := query_words.foldl
    (fun s w =>
      s + (if c.keywords.contains w then 2 else 0) +
        (if pyInStr w (pyLower c.original_content.title) then 3 else 0))
    0
  let phrasePart : ℚ :=
    ((c.key_phrases.filter
      (fun phrase => query_words.any
        (fun w => pyInStr w (pyLower phrase)))).length : ℚ) * 1.5
  let textPart : ℚ :=
    if query_words.any
      (fun w => pyInStr w (pyLower c.original_content.text_content))
    then 1 else 0
  wordPart + phrasePart + textPart

/-- `TextProcessor.search_kb`: collect the positive-score pages in corpus
order, sort stably by descending score, return the first ten. -/
def search_kb (enhanced_kb : EnhancedKnowledgeBase) (query : String) :
    List (Nat × ProcessedContent × ℚ) :=
  let query_words := pySplit (pyLower query)
  let relevant_content :=
    (enhanced_kb.processed_content.enum.map
      (fun p => (p.1, p.2, page_score query_words p.2))).filter
      (fun t => 0 < t.2.2)
  (pySortDescBy (fun t => t.2.2) relevant_content).take 10

/-! ## Specification predicates -/

/-- The string contains no newline, carriage return or tab. -/
def noNewlineCrTab (s : String) : Prop :=
  ∀ c ∈ s.data, c ≠ '\n' ∧ c ≠ '\r' ∧ c ≠ '\t'

instance (s : String) : Decidable (noNewlineCrTab s) := by
  unfold noNewlineCrTab; infer_instance

/-- The string never has two consecutive space characters. -/
def noDoubleSpace (s : String) : Prop :=
  s.data.Chain' (fun a b => ¬(a = ' ' ∧ b = ' '))

/-- Every character is either Python whitespace or printable ASCII /
`\n\r\t` (i.e. nothing `clean_text`'s character filter would delete). -/
def spaceOrPrintable (s : String) : Prop :=
  ∀ c ∈ s.data, pyIsSpace c = true ∨ keepChar c = true

instance (s : String) : Decidable (spaceOrPrintable s) := by
  unfold spaceOrPrintable; infer_instance

/-- Crawl-loop invariant: recorded pages have pairwise-distinct URLs, all of
them already marked visited; the visited set is duplicate-free; the page
counter tracks the number of recorded pages, which never exceeds the cap. -/
def CrawlInv (S : WebsiteScraper) (st : CrawlState) : Prop :=
  (st.scraped.map (fun c => c.url)).Nodup ∧
  (∀ u ∈ st.scraped.map (fun c => c.url), u ∈ st.visited) ∧
  st.visited.Nodup ∧
  st.page_count = st.scraped.length ∧
  st.scraped.length ≤ S.max_pages

/-- The stability order used by Python's stable descending sort: scores are
non-increasing, and on equal scores the tag (input position) increases. -/
def stableRel {α : Type} (key : α → ℚ) (tag : α → Nat) (a b : α) : Prop :=
  key b ≤ key a ∧ (key a = key b → tag a < tag b)

/-! ## Concrete fixtures used by witnesses and counterexamples -/

/-- A concrete scraper whose urllib collaborators act on two fixed URLs. -/
def scraperW : WebsiteScraper :=
  { base_url := "http://example.com"
    delay := 0
    max_pages := 50
    urlparse_netloc := fun u =>
      if u = "http://example.com" then "example.com"
      else if u = "http://sub.example.com/p" then "sub.example.com"
      else ""
    urljoin := fun _ u => u
    now := "2026-01-01T00:00:00" }

/-- A concrete parsed page holding one in-domain link. -/
def soupW : Soup :=
  { titleStr := some "Hello"
    headingsByLevel := [["H one"], [], [], [], [], []]
    paragraphTexts := ["This paragraph is long enough."]
    hrefs := ["http://sub.example.com/p"]
    metas := []
    rawText := "Hello\nworld" }

/-- A concrete NLP collaborator: identity-style tokenizers over whitespace
splitting, no corpus stop words. -/
def nlpW : NLP :=
  { sent_tokenize := fun t => some [t]
    word_tokenize := pySplit
    lemmatize := fun w => w
    pos_tag := fun ws => ws.map (fun w => (w, "NN"))
    stop_words := [] }

/-- An NLP collaborator whose sentence segmentation yields a fixed document
with two repeated sentences (a perfectly possible segmentation of a page
that repeats itself). -/
def nlpDup : NLP :=
  { sent_tokenize := fun _ => some
      ["alpha bravo charlie delta echoes",
       "foxtrot golfer hotel india juliet",
       "alpha bravo charlie delta echoes",
       "foxtrot golfer hotel india juliet",
       "kilo lima mike november oscar"]
    word_tokenize := pySplit
    lemmatize := fun w => w
    pos_tag := fun ws => ws.map (fun w => (w, "NN"))
    stop_words := [] }

/-- An NLP collaborator segmenting into four distinct sentences. -/
def nlpFour : NLP :=
  { sent_tokenize := fun _ => some
      ["alpha bravo charlie delta echoes",
       "foxtrot golfer hotel india juliet",
       "kilo lima mike november oscar",
       "papa quebec romeo sierra tango"]
    word_tokenize := pySplit
    lemmatize := fun w => w
    pos_tag := fun ws => ws.map (fun w => (w, "NN"))
    stop_words := [] }

/-- A scraped page with empty text. -/
def emptyContentW : ScrapedContent :=
  { url := "http://example.com/empty"
    title := "Empty"
    headings := []
    paragraphs := []
    links := []
    metadata := []
    scraped_at := "2026-01-01T00:00:00"
    word_count := 0
    text_content := "" }

/-- A processed page whose title and keywords mention "tiger". -/
def pcW : ProcessedContent :=
  { original_content := { emptyContentW with title := "Tiger facts" }
    sentences := []
    keywords := ["tiger"]
    word_frequencies := [("tiger", 2)]
    summary := ""
    key_phrases := []
    readability_score := some 0 }

/-- A processed page that never matches the query "tiger". -/
def pcW2 : ProcessedContent :=
  { original_content := { emptyContentW with title := "Llamas" }
    sentences := []
    keywords := ["llama"]
    word_frequencies := [("llama", 1)]
    summary := ""
    key_phrases := []
    readability_score := some 0 }

/-- A concrete enhanced knowledge base over the two fixture pages. -/
def ekbW : EnhancedKnowledgeBase :=
  { original_kb :=
      { website_url := "http://example.com"
        domain := "example.com"
        scraped_pages := []
        total_word_count := 0
        created_at := "2026-01-01T00:00:00"
        meta_total_pages := 0
        meta_visited_urls := 0
        meta_max_pages_limit := 50
        meta_delay_between_requests := 0 }
    processed_content := [pcW2, pcW]
    global_keywords := ["tiger", "llama"]
    search_index := fun _ => []
    processed_at := "2026-01-01T00:00:00" }

/-! ## Helper lemmas: stable insertion sort -/

theorem insDesc_perm {α : Type} (key : α → ℚ) (x : α) :
    ∀ acc : List α, List.Perm (insDesc key x acc) (x :: acc)
  | [] => List.Perm.refl _
  | y :: ys => by
    unfold insDesc
    by_cases h : key x ≤ key y
    · rw [if_pos h]
      exact (List.Perm.cons y (insDesc_perm key x ys)).trans (List.Perm.swap x y ys)
    · rw [if_neg h]

theorem foldl_insDesc_perm {α : Type} (key : α → ℚ) :
    ∀ (l acc : List α),
      List.Perm (l.foldl (fun acc x => insDesc key x acc) acc) (acc ++ l)
  | [], acc => by simp
  | x :: l, acc => by
    simp only [List.foldl_cons]
    refine (foldl_insDesc_perm key l (insDesc key x acc)).trans ?_
    refine ((insDesc_perm key x acc).append_right l).trans ?_
    simpa using List.perm_middle.symm

theorem pySortDescBy_perm {α : Type} (key : α → ℚ) (l : List α) :
    List.Perm (pySortDescBy key l) l := by
  simpa [pySortDescBy] using foldl_insDesc_perm key l []

theorem insDesc_sorted {α : Type} (key : α → ℚ) (x : α) :
    ∀ acc : List α, acc.Pairwise (fun a b => key b ≤ key a) →
      (insDesc key x acc).Pairwise (fun a b => key b ≤ key a)
  | [], _ => by simp [insDesc]
  | y :: ys, h => by
    obtain ⟨hy, hys⟩ := List.pairwise_cons.mp h
    unfold insDesc
    by_cases hxy : key x ≤ key y
    · rw [if_pos hxy]
      refine List.pairwise_cons.mpr ⟨?_, insDesc_sorted key x ys hys⟩
      intro z hz
      rcases List.mem_cons.mp ((insDesc_perm key x ys).mem_iff.mp hz) with hzx | hzys
      · exact hzx ▸ hxy
      · exact hy z hzys
    · rw [if_neg hxy]
      refine List.pairwise_cons.mpr ⟨?_, h⟩
      intro z hz
      rcases List.mem_cons.mp hz with hzy | hzys
      · exact hzy ▸ (le_of_not_le hxy)
      · exact (hy z hzys).trans (le_of_not_le hxy)

theorem foldl_insDesc_sorted {α : Type} (key : α → ℚ) :
    ∀ (l acc : List α), acc.Pairwise (fun a b => key b ≤ key a) →
      (l.foldl (fun acc x => insDesc key x acc) acc).Pairwise
        (fun a b => key b ≤ key a)
  | [], _, h => h
  | x :: l, acc, h => by
    simp only [List.foldl_cons]
    exact foldl_insDesc_sorted key l _ (insDesc_sorted key x acc h)

theorem pySortDescBy_sorted {α : Type} (key : α → ℚ) (l : List α) :
    (pySortDescBy key l).Pairwise (fun a b => key b ≤ key a) :=
  foldl_insDesc_sorted key l [] (List.Pairwise.nil)

theorem insDesc_stable {α : Type} (key : α → ℚ) (tag : α → Nat) (x : α) :
    ∀ acc : List α, acc.Pairwise (stableRel key tag) →
      (∀ y ∈ acc, tag y < tag x) →
      (insDesc key x acc).Pairwise (stableRel key tag)
  | [], _, _ => by simp [insDesc]
  | y :: ys, h, hm => by
    obtain ⟨hy, hys⟩ := List.pairwise_cons.mp h
    unfold insDesc
    by_cases hxy : key x ≤ key y
    · rw [if_pos hxy]
      refine List.pairwise_cons.mpr
        ⟨?_, insDesc_stable key tag x ys hys (fun z hz => hm z (List.mem_cons_of_mem y hz))⟩
      intro z hz
      rcases List.mem_cons.mp ((insDesc_perm key x ys).mem_iff.mp hz) with hzx | hzys
      · subst hzx
        exact ⟨hxy, fun _ => hm y (List.mem_cons_self y ys)⟩
      · exact hy z hzys
    · rw [if_neg hxy]
      refine List.pairwise_cons.mpr ⟨?_, h⟩
      intro z hz
      rcases List.mem_cons.mp hz with hzy | hzys
      · subst hzy
        exact ⟨le_of_not_le hxy, fun he => absurd he.le hxy⟩
      · exact ⟨(hy z hzys).1.trans (le_of_not_le hxy),
          fun he => absurd (he.le.trans (hy z hzys).1) hxy⟩

theorem foldl_insDesc_stable {α : Type} (key : α → ℚ) (tag : α → Nat) :
    ∀ (l acc : List α), acc.Pairwise (stableRel key tag) →
      (∀ y ∈ acc, ∀ z ∈ l, tag y < tag z) →
      l.Pairwise (fun a b => tag a < tag b) →
      (l.foldl (fun acc x => insDesc key x acc) acc).Pairwise
        (stableRel key tag)
  | [], _, h, _, _ => h
  | x :: l, acc, h, hcross, hl => by
    obtain ⟨hx, hl'⟩ := List.pairwise_cons.mp hl
    simp only [List.foldl_cons]
    refine foldl_insDesc_stable key tag l _ ?_ ?_ hl'
    · exact insDesc_stable key tag x acc h
        (fun y hy => hcross y hy x (List.mem_cons_self x l))
    · intro y hy z hz
      rcases List.mem_cons.mp ((insDesc_perm key x acc).mem_iff.mp hy) with hyx | hyacc
      · exact hyx ▸ hx z hz
      · exact hcross y hyacc z (List.mem_cons_of_mem x hz)

theorem pySortDescBy_stable {α : Type} (key : α → ℚ) (tag : α → Nat)
    (l : List α) (h : l.Pairwise (fun a b => tag a < tag b)) :
    (pySortDescBy key l).Pairwise (stableRel key tag) :=
  foldl_insDesc_stable key tag l [] List.Pairwise.nil (by simp) h

theorem insAsc_perm {α : Type} (key : α → ℚ) (x : α) :
    ∀ acc : List α, List.Perm (insAsc key x acc) (x :: acc)
  | [] => List.Perm.refl _
  | y :: ys => by
    unfold insAsc
    by_cases h : key y ≤ key x
    · rw [if_pos h]
      exact (List.Perm.cons y (insAsc_perm key x ys)).trans (List.Perm.swap x y ys)
    · rw [if_neg h]

theorem foldl_insAsc_perm {α : Type} (key : α → ℚ) :
    ∀ (l acc : List α),
      List.Perm (l.foldl (fun acc x => insAsc key x acc) acc) (acc ++ l)
  | [], acc => by simp
  | x :: l, acc => by
    simp only [List.foldl_cons]
    refine (foldl_insAsc_perm key l (insAsc key x acc)).trans ?_
    refine ((insAsc_perm key x acc).append_right l).trans ?_
    simpa using List.perm_middle.symm

theorem pySortAscBy_perm {α : Type} (key : α → ℚ) (l : List α) :
    List.Perm (pySortAscBy key l) l := by
  simpa [pySortAscBy] using foldl_insAsc_perm key l []

theorem insAsc_sorted {α : Type} (key : α → ℚ) (x : α) :
    ∀ acc : List α, acc.Pairwise (fun a b => key a ≤ key b) →
      (insAsc key x acc).Pairwise (fun a b => key a ≤ key b)
  | [], _ => by simp [insAsc]
  | y :: ys, h => by
    obtain ⟨hy, hys⟩ := List.pairwise_cons.mp h
    unfold insAsc
    by_cases hxy : key y ≤ key x
    · rw [if_pos hxy]
      refine List.pairwise_cons.mpr ⟨?_, insAsc_sorted key x ys hys⟩
      intro z hz
      rcases List.mem_cons.mp ((insAsc_perm key x ys).mem_iff.mp hz) with hzx | hzys
      · exact hzx ▸ hxy
      · exact hy z hzys
    · rw [if_neg hxy]
      refine List.pairwise_cons.mpr ⟨?_, h⟩
      intro z hz
      rcases List.mem_cons.mp hz with hzy | hzys
      · exact hzy ▸ (le_of_not_le hxy)
      · exact (le_of_not_le hxy).trans (hy z hzys)

theorem foldl_insAsc_sorted {α : Type} (key : α → ℚ) :
    ∀ (l acc : List α), acc.Pairwise (fun a b => key a ≤ key b) →
      (l.foldl (fun acc x => insAsc key x acc) acc).Pairwise
        (fun a b => key a ≤ key b)
  | [], _, h => h
  | x :: l, acc, h => by
    simp only [List.foldl_cons]
    exact foldl_insAsc_sorted key l _ (insAsc_sorted key x acc h)

theorem pySortAscBy_sorted {α : Type} (key : α → ℚ) (l : List α) :
    (pySortAscBy key l).Pairwise (fun a b => key a ≤ key b) :=
  foldl_insAsc_sorted key l [] (List.Pairwise.nil)

/-! ## Helper lemmas: enumeration, deduplication, take/drop -/

theorem enumFrom_pairwise_fst {α : Type} :
    ∀ (n : Nat) (l : List α),
      (List.enumFrom n l).Pairwise (fun a b => a.1 < b.1)
  | _, [] => by simp
  | n, x :: l => by
    simp only [List.enumFrom]
    refine List.pairwise_cons.mpr ⟨?_, enumFrom_pairwise_fst (n + 1) l⟩
    intro p hp
    exact Nat.lt_of_lt_of_le (Nat.lt_succ_self n) (List.le_fst_of_mem_enumFrom hp)

theorem enum_pairwise_fst {α : Type} (l : List α) :
    l.enum.Pairwise (fun a b => a.1 < b.1) :=
  enumFrom_pairwise_fst 0 l

theorem mem_dedupFirst_aux (x : String) :
    ∀ (l acc : List String),
      (x ∈ l.foldl (fun acc y => if y ∈ acc then acc else acc ++ [y]) acc ↔
        x ∈ acc ∨ x ∈ l)
  | [], acc => by simp
  | y :: l, acc => by
    simp only [List.foldl_cons]
    by_cases h : y ∈ acc
    · rw [if_pos h, mem_dedupFirst_aux x l acc]
      constructor
      · rintro (hx | hx)
        · exact Or.inl hx
        · exact Or.inr (List.mem_cons_of_mem y hx)
      · rintro (hx | hx)
        · exact Or.inl hx
        · rcases List.mem_cons.mp hx with rfl | hx
          · exact Or.inl h
          · exact Or.inr hx
    · rw [if_neg h, mem_dedupFirst_aux x l (acc ++ [y])]
      simp only [List.mem_append, List.mem_singleton, List.mem_cons]
      tauto

theorem mem_dedupFirst (l : List String) (x : String) :
    x ∈ dedupFirst l ↔ x ∈ l := by
  simpa [dedupFirst] using mem_dedupFirst_aux x l []

theorem pairwise_take_drop {α : Type} {R : α → α → Prop} {l : List α}
    (h : l.Pairwise R) (k : Nat) :
    ∀ a ∈ l.take k, ∀ b ∈ l.drop k, R a b := by
  have h2 : (l.take k ++ l.drop k).Pairwise R := by
    rw [List.take_append_drop]; exact h
  exact (List.pairwise_append.mp h2).2.2

/-! ## Claim theorems -/

/-- C1: for every `ScrapedContent` produced by `extract_structured_content`,
the `word_count` field equals the number of whitespace-separated tokens of
its `text_content` field, for any input markup, including empty text (where
`word_count = 0` and the token list is empty). -/
theorem word_count_spec (S : WebsiteScraper) (soup : Soup) (url : String) :
    (extract_structured_content S soup url).word_count =
      (pySplit (extract_structured_content S soup url).text_content).length := by
  by_cases h : extract_text_content soup = ""
  · simp [extract_structured_content, h, pySplit, splitWsTokens, splitWsAux]
  · simp [extract_structured_content, h]

/-- C2: every URL in a record's `links` passes `is_same_domain` — its
lowercased, stripped host (the urllib netloc observation) either equals the
seed's apex domain (`root_domain`, the last two dot-separated labels of the
lowercased seed host) or ends with "." followed by it — and it arose by
resolving, against the page's own URL, some `href` that is neither
fragment-only nor a mailto link. -/
theorem links_same_domain_spec (S : WebsiteScraper) (soup : Soup)
    (url link : String)
    (h : link ∈ (extract_structured_content S soup url).links) :
    S.is_same_domain link = true ∧
    (pyStripStr (pyLower (S.urlparse_netloc link)) = S.root_domain ∨
      pyEndsWith (pyStripStr (pyLower (S.urlparse_netloc link)))
        ("." ++ S.root_domain) = true) ∧
    ∃ href ∈ soup.hrefs, href ≠ "" ∧ pyStartsWith href "#" = false ∧
      pyStartsWith href "mailto:" = false ∧ link = S.normalize_url href url := by
  have h0 : (extract_structured_content S soup url).links =
      dedupFirst (soup.hrefs.filterMap (fun href =>
        if href ≠ "" && !pyStartsWith href "#" && !pyStartsWith href "mailto:"
        then
          if S.is_same_domain (S.normalize_url href url) then
            some (S.normalize_url href url)
          else none
        else none)) := rfl
  rw [h0] at h
  have h1 := (mem_dedupFirst _ link).mp h
  obtain ⟨href, hhref, hf⟩ := List.mem_filterMap.mp h1
  split at hf
  · rename_i hcond
    split at hf
    · rename_i hdom
      have hlink : link = S.normalize_url href url := (Option.some.inj hf).symm
      simp only [Bool.and_eq_true, bne_iff_ne, ne_eq, Bool.not_eq_true',
        decide_eq_false_iff_not] at hcond
      have hsd : S.is_same_domain link = true := hlink ▸ hdom
      refine ⟨hsd, ?_, href, hhref, ?_⟩
      · by_cases hz : pyStripStr (pyLower (S.urlparse_netloc link)) = ""
        · rw [WebsiteScraper.is_same_domain, if_pos hz] at hsd
          exact absurd hsd (by simp)
        · rw [WebsiteScraper.is_same_domain, if_neg hz] at hsd
          rcases Bool.or_eq_true_iff.mp hsd with hb | hb
          · exact Or.inl (beq_iff_eq.mp hb)
          · exact Or.inr hb
      · refine ⟨?_, ?_, ?_, hlink⟩
        · intro he
          exact absurd (he ▸ hcond.1.1) (by simp)
        · exact hcond.1.2
        · exact hcond.2
    · exact absurd hf (by simp)
  · exact absurd hf (by simp)

/-- C2 witness: the fixture page links to a subdomain page; the claim
instances evaluate there. -/
theorem links_same_domain_witness :
    ("http://sub.example.com/p" ∈
      (extract_structured_content scraperW soupW "http://example.com").links) ∧
    (scraperW.is_same_domain "http://sub.example.com/p" = true ∧
      (pyStripStr (pyLower (scraperW.urlparse_netloc "http://sub.example.com/p")) =
          scraperW.root_domain ∨
        pyEndsWith
          (pyStripStr (pyLower (scraperW.urlparse_netloc "http://sub.example.com/p")))
          ("." ++ scraperW.root_domain) = true) ∧
      ∃ href ∈ soupW.hrefs, href ≠ "" ∧ pyStartsWith href "#" = false ∧
        pyStartsWith href "mailto:" = false ∧
        "http://sub.example.com/p" =
          scraperW.normalize_url href "http://example.com") :=
  ⟨by decide,
    links_same_domain_spec scraperW soupW "http://example.com"
      "http://sub.example.com/p" (by decide)⟩

/-- `scrape_page` stamps the requested URL into the record it returns. -/
theorem scrape_page_url (S : WebsiteScraper) (net : String → Option HttpResponse)
    (parse : String → Option Soup) (url : String) (c : ScrapedContent)
    (h : scrape_page S net parse url = some c) : c.url = url := by
  unfold scrape_page at h
  cases hn : net url with
  | none => rw [hn] at h; exact absurd h (by simp)
  | some resp =>
    rw [hn] at h
    dsimp only at h
    split at h
    · exact absurd h (by simp)
    · cases hp : parse resp.body with
      | none => rw [hp] at h; exact absurd h (by simp)
      | some soup =>
        rw [hp] at h
        have := Option.some.inj h
        rw [← this]
        rfl

/-- The crawl-loop invariant is preserved by any number of iterations, for
any fetch outcomes and any frontier choice order. -/
theorem crawl_loop_inv (S : WebsiteScraper) (net : String → Option HttpResponse)
    (parse : String → Option Soup) (choose : List String → Nat) :
    ∀ (fuel : Nat) (st : CrawlState), CrawlInv S st →
      CrawlInv S (crawl_loop S net parse choose fuel st)
  | 0, _, h => h
  | Nat.succ fuel, st, h => by
    rw [crawl_loop]
    split
    · exact h
    · rename_i hguard
      rw [not_or, not_not] at hguard
      dsimp only
      split
      · exact crawl_loop_inv S net parse choose fuel _ h
      · rename_i hcur
        cases hsp : scrape_page S net parse
            (st.to_visit.getD (choose st.to_visit % st.to_visit.length) "") with
        | none =>
          apply crawl_loop_inv S net parse choose fuel
          exact ⟨h.1, fun u hu => List.mem_cons_of_mem _ (h.2.1 u hu),
            List.nodup_cons.mpr ⟨hcur, h.2.2.1⟩, h.2.2.2.1, h.2.2.2.2⟩
        | some content =>
          apply crawl_loop_inv S net parse choose fuel
          have hurl : content.url =
              st.to_visit.getD (choose st.to_visit % st.to_visit.length) "" :=
            scrape_page_url S net parse _ content hsp
          refine ⟨?_, ?_, List.nodup_cons.mpr ⟨hcur, h.2.2.1⟩, ?_, ?_⟩
          · rw [List.map_append]
            refine List.Nodup.append h.1 (by simp) ?_
            intro u hu hu2
            simp only [List.map_cons, List.map_nil, List.mem_singleton] at hu2
            apply hcur
            rw [← hurl, ← hu2]
            exact h.2.1 u hu
          · intro u hu
            rw [List.map_append] at hu
            rcases List.mem_append.mp hu with hu | hu
            · exact List.mem_cons_of_mem _ (h.2.1 u hu)
            · simp only [List.map_cons, List.map_nil, List.mem_singleton] at hu
              rw [hu, hurl]
              exact List.mem_cons_self _ _
          · simp [h.2.2.2.1]
          · rw [List.length_append, List.length_singleton]
            have := h.2.2.2.1 ▸ hguard.2
            omega

/-- C3: at the end of any crawl (any seed, any cap, any fetch outcomes, any
frontier order), the number of visited URLs is at least the number of
recorded pages, no URL occurs twice among the recorded pages, and the number
of recorded pages never exceeds `max_pages` (failed or skipped fetches never
count). -/
theorem crawl_invariants_spec (S : WebsiteScraper)
    (net : String → Option HttpResponse) (parse : String → Option Soup)
    (choose : List String → Nat) (fuel : Nat) :
    (crawl_website S net parse choose fuel).scraped_pages.length ≤
      (crawl_website S net parse choose fuel).meta_visited_urls ∧
    ((crawl_website S net parse choose fuel).scraped_pages.map
      (fun c => c.url)).Nodup ∧
    (crawl_website S net parse choose fuel).scraped_pages.length ≤
      S.max_pages := by
  have hInv := crawl_loop_inv S net parse choose fuel (initState S)
    ⟨by simp [initState], by simp [initState], by simp [initState],
      rfl, by simp [initState]⟩
  obtain ⟨hnd, hsub, hvnd, _, hle⟩ := hInv
  refine ⟨?_, hnd, hle⟩
  have := (List.subperm_of_subset hnd hsub).length_le
  simpa using this

/-- C4: for every enhanced knowledge base and query, `search_kb` returns at
most 10 results, with scores in non-increasing order, only pages of strictly
positive score, and — being a stable sort of a list built in corpus order —
results with equal score keep increasing page indices. -/
theorem search_kb_spec (ekb : EnhancedKnowledgeBase) (query : String) :
    (search_kb ekb query).length ≤ 10 ∧
    (search_kb ekb query).Pairwise (fun a b => b.2.2 ≤ a.2.2) ∧
    (∀ x ∈ search_kb ekb query, 0 < x.2.2) ∧
    (search_kb ekb query).Pairwise (fun a b => a.2.2 = b.2.2 → a.1 < b.1) := by
  have hdef : search_kb ekb query =
      (pySortDescBy (fun t => t.2.2)
        ((ekb.processed_content.enum.map
          (fun p => (p.1, p.2, page_score (pySplit (pyLower query)) p.2))).filter
          (fun t => decide (0 < t.2.2)))).take 10 := rfl
  set rel := (ekb.processed_content.enum.map
      (fun p => (p.1, p.2, page_score (pySplit (pyLower query)) p.2))).filter
      (fun t => decide (0 < t.2.2)) with hrel_def
  have hrelPW : rel.Pairwise
      (fun (a b : Nat × ProcessedContent × ℚ) => a.1 < b.1) := by
    refine List.Pairwise.filter _ ?_
    rw [List.pairwise_map]
    exact enum_pairwise_fst ekb.processed_content
  have hsorted := pySortDescBy_stable (fun t => t.2.2) (fun t => t.1) rel hrelPW
  have htake : ((pySortDescBy (fun t => t.2.2) rel).take 10).Pairwise
      (stableRel (fun t => t.2.2) (fun t => t.1)) :=
    List.Pairwise.sublist (List.take_sublist 10 _) hsorted
  refine ⟨?_, ?_, ?_, ?_⟩
  · rw [hdef, List.length_take]
    exact min_le_left _ _
  · rw [hdef]
    exact htake.imp (fun pr => pr.1)
  · intro x hx
    rw [hdef] at hx
    have hx2 : x ∈ pySortDescBy (fun t => t.2.2) rel :=
      (List.take_sublist 10 _).subset hx
    have hx3 : x ∈ rel := (pySortDescBy_perm _ rel).mem_iff.mp hx2
    have := List.of_mem_filter hx3
    exact of_decide_eq_true this
  · rw [hdef]
    exact htake.imp (fun pr => pr.2)

theorem pageScore_pcW : page_score ["tiger"] pcW = 5 := by
  have ht : pyInStr "tiger" (pyLower "Tiger facts") = true := by decide
  have htx : pyInStr "tiger" (pyLower emptyContentW.text_content) = false := by decide
  simp [page_score, ht, htx, pcW]
  norm_num

theorem pageScore_pcW2 : page_score ["tiger"] pcW2 = 0 := by
  have ht : pyInStr "tiger" (pyLower "Llamas") = false := by decide
  have htx : pyInStr "tiger" (pyLower emptyContentW.text_content) = false := by decide
  simp [page_score, ht, htx, pcW2]

theorem search_kb_eval : search_kb ekbW "tiger" = [(1, pcW, 5)] := by
  have hq : pySplit (pyLower "tiger") = ["tiger"] := by decide
  show (pySortDescBy (fun t => t.2.2)
      ((ekbW.processed_content.enum.map
        (fun p => (p.1, p.2, page_score (pySplit (pyLower "tiger")) p.2))).filter
        (fun t => decide (0 < t.2.2)))).take 10 = [(1, pcW, 5)]
  rw [hq]
  have henum : ekbW.processed_content.enum = [(0, pcW2), (1, pcW)] := by rfl
  rw [henum]
  simp [pageScore_pcW, pageScore_pcW2, pySortDescBy, insDesc]

/-- C6: whenever `calculate_readability` returns a value, the value lies in
`[0, 100]` (it is the clamped Flesch score built from the vowel-run syllable
heuristic), and when no sentences are extracted it returns exactly 0. -/
theorem readability_spec (N : NLP) (text : String) :
    (∀ r : ℚ, calculate_readability N text = some r → 0 ≤ r ∧ r ≤ 100) ∧
    (extract_sentences N text = [] → calculate_readability N text = some 0) := by
  constructor
  · intro r hr
    unfold calculate_readability at hr
    dsimp only at hr
    split at hr
    · have h0 := Option.some.inj hr
      constructor <;> simp [← h0]
    · split at hr
      · exact absurd hr (by simp)
      · split at hr
        · exact absurd hr (by simp)
        · have h0 := Option.some.inj hr
          refine ⟨?_, ?_⟩
          · rw [← h0]; exact le_max_left _ _
          · rw [← h0]
            exact max_le (by norm_num) (min_le_left _ _)
  · intro hs
    unfold calculate_readability
    simp [hs]

theorem readability_eval :
    calculate_readability nlpW
      "the quick brown fox jumped over the lazy dog today" =
      some (15649 / 200 : ℚ) := by
  have h1 : extract_sentences nlpW
      "the quick brown fox jumped over the lazy dog today" =
      ["the quick brown fox jumped over the lazy dog today"] := by decide
  have h2 : (["the quick brown fox jumped over the lazy dog today"].flatMap
      nlpW.word_tokenize) =
      ["the", "quick", "brown", "fox", "jumped", "over", "the", "lazy",
        "dog", "today"] := by decide
  have h3 : (["the", "quick", "brown", "fox", "jumped", "over", "the",
      "lazy", "dog", "today"].map (fun w => count_syllables w)).sum = 14 := by
    decide
  unfold calculate_readability
  rw [h1]
  dsimp only
  rw [h2]
  rw [if_neg (by decide), if_neg (by decide), if_neg (by decide)]
  rw [h3]
  congr 1
  norm_num

/-- C6 witness: a ten-word one-sentence fixture text evaluates to
`15649/200 = 78.245`, which the theorem instance places in `[0, 100]`. -/
theorem readability_witness :
    calculate_readability nlpW
      "the quick brown fox jumped over the lazy dog today" =
      some (15649 / 200 : ℚ) ∧
    (0 ≤ (15649 / 200 : ℚ) ∧ (15649 / 200 : ℚ) ≤ 100) :=
  ⟨readability_eval,
    (readability_spec nlpW
      "the quick brown fox jumped over the lazy dog today").1 _
      readability_eval⟩

theorem startsWithChars_append_left (y : List Char) :
    ∀ (x l : List Char), startsWithChars (x ++ y) l = true →
      startsWithChars x l = true
  | [], _, _ => rfl
  | _ :: _, [], h => by simp [startsWithChars] at h
  | a :: x, b :: l, h => by
    simp only [List.cons_append, startsWithChars, Bool.and_eq_true] at h ⊢
    exact ⟨h.1, startsWithChars_append_left y x l h.2⟩

theorem containsChars_append_left (x y : List Char) :
    ∀ l : List Char, containsChars (x ++ y) l = true →
      containsChars x l = true
  | [], h => by
    simp only [containsChars, List.isEmpty_iff, List.append_eq_nil] at h
    simp [containsChars, h.1]
  | c :: l, h => by
    simp only [containsChars, Bool.or_eq_true] at h ⊢
    rcases h with h | h
    · exact Or.inl (startsWithChars_append_left y x (c :: l) h)
    · exact Or.inr (containsChars_append_left x y l h)

/-- C7 counterexample: a response whose content type is "text/plain" — not
text/HTML — is NOT dropped: `scrape_page` parses it and returns a record,
so the claim as stated fails. -/
theorem scrape_page_counterexample :
    pyInStr "text/html" (pyLower "text/plain") = false ∧
    (scrape_page scraperW
      (fun _ => some { content_type := "text/plain", body := "b" })
      (fun _ => some soupW) "http://example.com").isSome = true := by
  constructor
  · decide
  · decide

/-- C7 (amended): a fetched response whose lowercased content type does not
contain the substring "text" is dropped — `scrape_page` returns no record —
and in the crawl loop such a URL adds nothing to the recorded pages or the
page counter: the iteration only moves it from the frontier into `visited`
and the crawl continues. -/
theorem scrape_page_spec (S : WebsiteScraper)
    (net : String → Option HttpResponse) (parse : String → Option Soup)
    (url : String) (resp : HttpResponse)
    (hresp : net url = some resp)
    (hct : pyInStr "text" (pyLower resp.content_type) = false) :
    scrape_page S net parse url = none ∧
    ∀ (choose : List String → Nat) (fuel : Nat) (st : CrawlState),
      st.to_visit.getD (choose st.to_visit % st.to_visit.length) "" = url →
      ¬st.to_visit.length = 0 → st.page_count < S.max_pages →
      url ∉ st.visited →
      crawl_loop S net parse choose (fuel + 1) st =
        crawl_loop S net parse choose fuel
          { st with
            to_visit :=
              st.to_visit.eraseIdx (choose st.to_visit % st.to_visit.length)
            visited := url :: st.visited } := by
  have hhtml : pyInStr "text/html" (pyLower resp.content_type) = false := by
    by_contra hc
    rw [Bool.not_eq_false] at hc
    have hsplit : ("text/html" : String).data =
        ("text" : String).data ++ ("/html" : String).data := by decide
    have := containsChars_append_left ("text" : String).data
      ("/html" : String).data (pyLower resp.content_type).data
      (by rw [← hsplit]; exact hc)
    rw [pyInStr] at hct
    rw [hct] at this
    exact Bool.false_ne_true this
  have hdrop : scrape_page S net parse url = none := by
    unfold scrape_page
    rw [hresp]
    dsimp only
    rw [if_pos]
    rw [hhtml, hct]
    rfl
  refine ⟨hdrop, ?_⟩
  intro choose fuel st hcur hne hpc hnv
  rw [crawl_loop]
  rw [if_neg (by
    rw [not_or, not_not]
    exact ⟨hne, hpc⟩)]
  dsimp only
  rw [hcur, if_neg hnv, hdrop]

/-- C7 witness: a concrete "application/pdf" response at the seed URL is
dropped and the crawl's first iteration just marks the URL visited. -/
theorem scrape_page_spec_witness :
    ((fun (_ : String) =>
      some { content_type := "application/pdf", body := "" : HttpResponse })
        "http://example.com" =
      some { content_type := "application/pdf", body := "" }) ∧
    pyInStr "text" (pyLower "application/pdf") = false ∧
    scrape_page scraperW
      (fun _ => some { content_type := "application/pdf", body := "" })
      (fun _ => some soupW) "http://example.com" = none :=
  ⟨rfl, by decide,
    (scrape_page_spec scraperW
      (fun _ => some { content_type := "application/pdf", body := "" })
      (fun _ => some soupW) "http://example.com"
      { content_type := "application/pdf", body := "" } rfl (by decide)).1⟩

/-- C8: `process_content` on a page whose text is the empty string returns
the enriched record with all derived fields empty and readability 0,
raising no exception (it is total on this branch). -/
theorem process_content_empty_spec (N : NLP) (content : ScrapedContent)
    (h : content.text_content = "") :
    process_content N content =
      { original_content := content
        sentences := []
        keywords := []
        word_frequencies := []
        summary := ""
        key_phrases := []
        readability_score := some 0 } := by
  unfold process_content
  simp [h]

/-- C8 witness: the empty-text fixture page evaluates to the all-empty
enriched record. -/
theorem process_content_empty_witness :
    emptyContentW.text_content = "" ∧
    process_content nlpW emptyContentW =
      { original_content := emptyContentW
        sentences := []
        keywords := []
        word_frequencies := []
        summary := ""
        key_phrases := []
        readability_score := some 0 } :=
  ⟨rfl, process_content_empty_spec nlpW emptyContentW rfl⟩

theorem foldl_addIdx_shape {α : Type} (n : Nat)
    (F : (String → List Nat) → α → (String → List Nat))
    (hF : ∀ m x k, F m x k = m k ∨ F m x k = m k ++ [n]) :
    ∀ (l : List α) (m : String → List Nat) (k : String),
      ∃ j, (l.foldl F m) k = m k ++ List.replicate j n
  | [], m, k => ⟨0, by simp⟩
  | x :: l, m, k => by
    simp only [List.foldl_cons]
    obtain ⟨j, hj⟩ := foldl_addIdx_shape n F hF l (F m x) k
    rcases hF m x k with hx | hx
    · exact ⟨j, by rw [hj, hx]⟩
    · exact ⟨j + 1, by
        rw [hj, hx, List.append_assoc]
        simp [List.replicate_succ]⟩

theorem bsiStep_shape (m : String → List Nat) (p : Nat × ProcessedContent)
    (k : String) : ∃ j, bsiStep m p k = m k ++ List.replicate j p.1 := by
  have hF1 : ∀ (m' : String → List Nat) (x q : String),
      addIdx m' (pyLower x) p.1 q = m' q ∨
        addIdx m' (pyLower x) p.1 q = m' q ++ [p.1] := by
    intro m' x q
    simp only [addIdx]
    by_cases hq : q = pyLower x
    · exact Or.inr (if_pos hq)
    · exact Or.inl (if_neg hq)
  have hF2 : ∀ (m' : String → List Nat) (x q : String),
      (if 2 ≤ (pySplit (pyLower x)).length then
        addIdx m' (pyJoin " " (pySplit (pyLower x))) p.1
      else m') q = m' q ∨
      (if 2 ≤ (pySplit (pyLower x)).length then
        addIdx m' (pyJoin " " (pySplit (pyLower x))) p.1
      else m') q = m' q ++ [p.1] := by
    intro m' x q
    split
    · simp only [addIdx]
      by_cases hq : q = pyJoin " " (pySplit (pyLower x))
      · exact Or.inr (if_pos hq)
      · exact Or.inl (if_neg hq)
    · exact Or.inl rfl
  obtain ⟨j1, hj1⟩ := foldl_addIdx_shape p.1
    (fun m' kw => addIdx m' (pyLower kw) p.1) hF1 p.2.keywords m k
  obtain ⟨j2, hj2⟩ := foldl_addIdx_shape p.1
    (fun m' phrase =>
      if 2 ≤ (pySplit (pyLower phrase)).length then
        addIdx m' (pyJoin " " (pySplit (pyLower phrase))) p.1
      else m') hF2 p.2.key_phrases
    (p.2.keywords.foldl (fun m' kw => addIdx m' (pyLower kw) p.1) m) k
  refine ⟨j1 + j2, ?_⟩
  have hstep : bsiStep m p k =
      (p.2.key_phrases.foldl
        (fun m' phrase =>
          if 2 ≤ (pySplit (pyLower phrase)).length then
            addIdx m' (pyJoin " " (pySplit (pyLower phrase))) p.1
          else m')
        (p.2.keywords.foldl (fun m' kw => addIdx m' (pyLower kw) p.1) m)) k :=
    rfl
  rw [hstep, hj2, hj1, List.append_assoc, ← List.replicate_add]

theorem bsi_outer :
    ∀ (l : List ProcessedContent) (n : Nat) (m : String → List Nat)
      (k : String),
      (∀ i ∈ m k, i < n) → (m k).Pairwise (· ≤ ·) →
      (∀ i ∈ ((List.enumFrom n l).foldl bsiStep m) k, i < n + l.length) ∧
        (((List.enumFrom n l).foldl bsiStep m) k).Pairwise (· ≤ ·)
  | [], n, m, k, hb, hp => by
    refine ⟨fun i hi => ?_, ?_⟩
    · simp only [List.enumFrom, List.foldl_nil] at hi
      simpa using hb i hi
    · simp only [List.enumFrom, List.foldl_nil]
      exact hp
  | p :: l, n, m, k, hb, hp => by
    simp only [List.enumFrom, List.foldl_cons]
    obtain ⟨j, hj⟩ := bsiStep_shape m (n, p) k
    have hb' : ∀ i ∈ bsiStep m (n, p) k, i < n + 1 := by
      intro i hi
      rw [hj] at hi
      rcases List.mem_append.mp hi with hi | hi
      · exact Nat.lt_succ_of_lt (hb i hi)
      · rw [List.eq_of_mem_replicate hi]
        exact Nat.lt_succ_self n
    have hp' : (bsiStep m (n, p) k).Pairwise (· ≤ ·) := by
      rw [hj]
      refine List.pairwise_append.mpr ⟨hp, ?_, ?_⟩
      · rw [List.pairwise_replicate]
        exact Or.inr (Nat.le_refl n)
      · intro a ha b hbm
        rw [List.eq_of_mem_replicate hbm]
        exact Nat.le_of_lt (hb a ha)
    have := bsi_outer l (n + 1) (bsiStep m (n, p)) k hb' hp'
    refine ⟨fun i hi => ?_, this.2⟩
    have h2 := this.1 i hi
    simpa [Nat.succ_add] using h2

/-- C9: in the search index built by `build_search_index`, every stored page
index is a valid index into the processed-page list, and each key's index
list is non-decreasing. -/
theorem search_index_spec (pcs : List ProcessedContent) (key : String) :
    (∀ i ∈ build_search_index pcs key, i < pcs.length) ∧
    (build_search_index pcs key).Pairwise (· ≤ ·) := by
  have h := bsi_outer pcs 0 (fun _ => []) key (by simp) (by simp)
  exact ⟨fun i hi => by simpa using h.1 i hi, h.2⟩

/-- C9 witness: at a two-page corpus, the key "tiger" maps to page index 1,
which is within bounds. -/
theorem search_index_witness :
    (1 ∈ build_search_index [pcW2, pcW] "tiger") ∧ 1 < [pcW2, pcW].length :=
  ⟨by decide, (search_index_spec [pcW2, pcW] "tiger").1 1 (by decide)⟩

/-! ## Helper lemmas: clean_text (C10) -/

theorem collapseWsAux_cons_space_true {d : Char} (r : List Char)
    (h : pyIsSpace d = true) :
    collapseWsAux true (d :: r) = collapseWsAux true r := by
  unfold collapseWsAux
  rw [if_pos h]
  simp
  cases r with
  | nil => rfl
  | cons c rest => rfl

theorem collapseWsAux_cons_space_false {d : Char} (r : List Char)
    (h : pyIsSpace d = true) :
    collapseWsAux false (d :: r) = ' ' :: collapseWsAux true r := by
  unfold collapseWsAux
  rw [if_pos h]
  simp
  cases r with
  | nil => rfl
  | cons c rest => rfl

theorem collapseWsAux_cons_nonspace {d : Char} (r : List Char) (b : Bool)
    (h : pyIsSpace d = false) :
    collapseWsAux b (d :: r) = d :: collapseWsAux false r := by
  unfold collapseWsAux
  rw [h]
  simp
  cases r with
  | nil => rfl
  | cons c rest => rfl

theorem mem_collapseWsAux :
    ∀ (l : List Char) (b : Bool) (c : Char),
      c ∈ collapseWsAux b l → c = ' ' ∨ c ∈ l
  | [], _, _, h => by simp [collapseWsAux] at h
  | d :: rest, b, c, h => by
    unfold collapseWsAux at h
    by_cases hd : pyIsSpace d
    · rw [if_pos hd] at h
      cases b with
      | true =>
        rcases mem_collapseWsAux rest true c h with h | h
        · exact Or.inl h
        · exact Or.inr (List.mem_cons_of_mem d h)
      | false =>
        rcases List.mem_cons.mp h with h | h
        · exact Or.inl h
        · rcases mem_collapseWsAux rest true c h with h | h
          · exact Or.inl h
          · exact Or.inr (List.mem_cons_of_mem d h)
    · rw [if_neg hd] at h
      rcases List.mem_cons.mp h with h | h
      · exact Or.inr (h ▸ List.mem_cons_self d rest)
      · rcases mem_collapseWsAux rest false c h with h | h
        · exact Or.inl h
        · exact Or.inr (List.mem_cons_of_mem d h)

theorem space_mem_collapseWsAux :
    ∀ (l : List Char) (b : Bool) (c : Char),
      c ∈ collapseWsAux b l → pyIsSpace c = true → c = ' '
  | [], _, _, h, _ => by simp [collapseWsAux] at h
  | d :: rest, b, c, h, hc => by
    unfold collapseWsAux at h
    by_cases hd : pyIsSpace d
    · rw [if_pos hd] at h
      cases b with
      | true => exact space_mem_collapseWsAux rest true c h hc
      | false =>
        rcases List.mem_cons.mp h with h | h
        · exact h
        · exact space_mem_collapseWsAux rest true c h hc
    · rw [if_neg hd] at h
      rcases List.mem_cons.mp h with h | h
      · exact absurd (h ▸ hc) (by simp [hd])
      · exact space_mem_collapseWsAux rest false c h hc

theorem collapseWsAux_true_headOk :
    ∀ (l : List Char) (c : Char),
      (collapseWsAux true l).head? = some c → pyIsSpace c = false
  | [], c, h => by simp [collapseWsAux] at h
  | d :: rest, c, h => by
    unfold collapseWsAux at h
    by_cases hd : pyIsSpace d
    · rw [if_pos hd] at h
      exact collapseWsAux_true_headOk rest c h
    · rw [if_neg hd] at h
      simp only [List.head?_cons, Option.some.injEq] at h
      rw [← h]
      exact Bool.not_eq_true _ ▸ (by simpa using hd)

theorem collapseWsAux_chain :
    ∀ (l : List Char) (b : Bool),
      (collapseWsAux b l).Chain'
        (fun a c => ¬(pyIsSpace a = true ∧ pyIsSpace c = true))
  | [], _ => by simp [collapseWsAux]
  | d :: rest, b => by
    unfold collapseWsAux
    by_cases hd : pyIsSpace d
    · rw [if_pos hd]
      cases b with
      | true => exact collapseWsAux_chain rest true
      | false =>
        refine List.chain'_cons'.mpr ⟨?_, collapseWsAux_chain rest true⟩
        intro y hy
        rw [collapseWsAux_true_headOk rest y hy]
        simp
    · rw [if_neg hd]
      refine List.chain'_cons'.mpr ⟨?_, collapseWsAux_chain rest false⟩
      intro y _
      simp [hd]

theorem collapseWsAux_ne_nil :
    ∀ (l : List Char) (b : Bool) (c : Char),
      c ∈ l → pyIsSpace c = false → collapseWsAux b l ≠ []
  | [], _, _, hc, _ => absurd hc (List.not_mem_nil _)
  | d :: rest, b, c, hc, hcs => by
    unfold collapseWsAux
    by_cases hd : pyIsSpace d
    · rw [if_pos hd]
      have hcr : c ∈ rest := by
        rcases List.mem_cons.mp hc with h | h
        · exact absurd (h ▸ hcs) (by simp [hd])
        · exact h
      cases b with
      | true => exact collapseWsAux_ne_nil rest true c hcr hcs
      | false => simp
    · rw [if_neg hd]
      simp

theorem getLast?_cons_of_ne_nil {c : Char} {rest : List Char}
    (h : rest ≠ []) : (c :: rest).getLast? = rest.getLast? := by
  cases rest with
  | nil => exact absurd rfl h
  | cons e t => exact List.getLast?_cons_cons

theorem collapseWsAux_lastOk :
    ∀ (l : List Char) (b : Bool),
      (∀ c, l.getLast? = some c → pyIsSpace c = false) →
      ∀ c, (collapseWsAux b l).getLast? = some c → pyIsSpace c = false
  | [], _, _, c, h => by simp [collapseWsAux] at h
  | [d], b, hl, c, h => by
    have hd : pyIsSpace d = false := hl d (by simp)
    unfold collapseWsAux at h
    rw [hd] at h
    simp only [Bool.false_eq_true, if_false, collapseWsAux,
      List.getLast?_singleton, Option.some.injEq] at h
    rw [← h]
    exact hd
  | d :: e :: rest, b, hl, c, h => by
    have hl' : ∀ c, (e :: rest).getLast? = some c → pyIsSpace c = false := by
      intro c hc
      refine hl c ?_
      rw [List.getLast?_cons_cons]
      exact hc
    have hx : ∃ x, (e :: rest).getLast? = some x :=
      ⟨_, List.getLast?_eq_getLast _ (by simp)⟩
    obtain ⟨x, hxe⟩ := hx
    have hxs : pyIsSpace x = false := hl' x hxe
    have hxm : x ∈ e :: rest := by
      rw [List.getLast?_eq_getLast _ (by simp)] at hxe
      exact (Option.some.inj hxe) ▸ List.getLast_mem _
    by_cases hd : pyIsSpace d
    · cases b with
      | true =>
        rw [collapseWsAux_cons_space_true _ hd] at h
        exact collapseWsAux_lastOk (e :: rest) true hl' c h
      | false =>
        rw [collapseWsAux_cons_space_false _ hd,
          getLast?_cons_of_ne_nil
            (collapseWsAux_ne_nil (e :: rest) true x hxm hxs)] at h
        exact collapseWsAux_lastOk (e :: rest) true hl' c h
    · rw [collapseWsAux_cons_nonspace _ b (by simpa using hd),
        getLast?_cons_of_ne_nil
          (collapseWsAux_ne_nil (e :: rest) false x hxm hxs)] at h
      exact collapseWsAux_lastOk (e :: rest) false hl' c h

theorem mem_of_mem_dropWhile {p : Char → Bool} :
    ∀ {l : List Char} {c : Char}, c ∈ l.dropWhile p → c ∈ l
  | [], _, h => h
  | d :: rest, c, h => by
    rw [List.dropWhile_cons] at h
    by_cases hd : p d
    · rw [if_pos hd] at h
      exact List.mem_cons_of_mem d (mem_of_mem_dropWhile h)
    · rw [if_neg hd] at h
      exact h

theorem mem_of_mem_stripChars {l : List Char} {c : Char}
    (h : c ∈ stripChars l) : c ∈ l := by
  unfold stripChars at h
  rw [List.mem_reverse] at h
  have h2 := mem_of_mem_dropWhile h
  rw [List.mem_reverse] at h2
  exact mem_of_mem_dropWhile h2

theorem dropWhile_space_headOk :
    ∀ (l : List Char) (c : Char),
      (l.dropWhile pyIsSpace).head? = some c → pyIsSpace c = false
  | [], c, h => by simp at h
  | d :: rest, c, h => by
    rw [List.dropWhile_cons] at h
    by_cases hd : pyIsSpace d
    · rw [if_pos hd] at h
      exact dropWhile_space_headOk rest c h
    · rw [if_neg hd] at h
      simp only [List.head?_cons, Option.some.injEq] at h
      rw [← h]
      simpa using hd

theorem dropWhile_getLast?_eq {p : Char → Bool} :
    ∀ (l : List Char), l.dropWhile p ≠ [] →
      (l.dropWhile p).getLast? = l.getLast?
  | [], h => by simp at h
  | d :: rest, h => by
    rw [List.dropWhile_cons]
    rw [List.dropWhile_cons] at h
    by_cases hd : p d
    · rw [if_pos hd] at h ⊢
      have hrest : rest ≠ [] := by
        intro he
        rw [he] at h
        simp at h
      rw [dropWhile_getLast?_eq rest h, getLast?_cons_of_ne_nil hrest]
    · rw [if_neg hd]

theorem stripChars_headOk (l : List Char) :
    ∀ c, (stripChars l).head? = some c → pyIsSpace c = false := by
  intro c h
  unfold stripChars at h
  rw [List.head?_reverse] at h
  by_cases hw : (l.dropWhile pyIsSpace).reverse.dropWhile pyIsSpace = []
  · rw [hw] at h
    simp at h
  · rw [dropWhile_getLast?_eq _ hw, List.getLast?_reverse] at h
    exact dropWhile_space_headOk l c h

theorem stripChars_lastOk (l : List Char) :
    ∀ c, (stripChars l).getLast? = some c → pyIsSpace c = false := by
  intro c h
  unfold stripChars at h
  rw [List.getLast?_reverse] at h
  exact dropWhile_space_headOk _ c h

theorem dropWhile_eq_self_of_headOk {p : Char → Bool} :
    ∀ (l : List Char), (∀ c, l.head? = some c → p c = false) →
      l.dropWhile p = l
  | [], _ => rfl
  | d :: rest, h => by
    rw [List.dropWhile_cons, h d (by simp)]
    simp

theorem stripChars_eq_self (l : List Char)
    (h1 : ∀ c, l.head? = some c → pyIsSpace c = false)
    (h2 : ∀ c, l.getLast? = some c → pyIsSpace c = false) :
    stripChars l = l := by
  unfold stripChars
  rw [dropWhile_eq_self_of_headOk l h1]
  rw [dropWhile_eq_self_of_headOk l.reverse
    (fun c hc => h2 c (by rwa [List.head?_reverse] at hc))]
  exact List.reverse_reverse l

theorem collapseWsAux_true_eq_false :
    ∀ (l : List Char), (∀ c, l.head? = some c → pyIsSpace c = false) →
      collapseWsAux true l = collapseWsAux false l
  | [], _ => rfl
  | d :: rest, h => by
    have hd : pyIsSpace d = false := h d (by simp)
    unfold collapseWsAux
    rw [hd]
    simp

theorem collapseWsAux_headOk (l : List Char)
    (h : ∀ c, l.head? = some c → pyIsSpace c = false) :
    ∀ c, (collapseWsAux false l).head? = some c → pyIsSpace c = false := by
  intro c hc
  cases l with
  | nil => simp [collapseWsAux] at hc
  | cons d rest =>
    have hd : pyIsSpace d = false := h d (by simp)
    unfold collapseWsAux at hc
    rw [hd] at hc
    simp only [Bool.false_eq_true, if_false, List.head?_cons,
      Option.some.injEq] at hc
    rw [← hc]
    exact hd

theorem collapseWs_eq_self :
    ∀ (l : List Char),
      l.Chain' (fun a c => ¬(pyIsSpace a = true ∧ pyIsSpace c = true)) →
      (∀ c ∈ l, pyIsSpace c = true → c = ' ') →
      collapseWsAux false l = l
  | [], _, _ => rfl
  | d :: rest, hch, hsp => by
    obtain ⟨hhead, hrest⟩ := List.chain'_cons'.mp hch
    have hsp' : ∀ c ∈ rest, pyIsSpace c = true → c = ' ' :=
      fun c hc => hsp c (List.mem_cons_of_mem d hc)
    by_cases hd : pyIsSpace d
    · have hd' : d = ' ' := hsp d (List.mem_cons_self d rest) hd
      have hhd : ∀ c, rest.head? = some c → pyIsSpace c = false := by
        intro c hc
        by_contra hcs
        rw [Bool.not_eq_false] at hcs
        exact hhead c hc ⟨hd, hcs⟩
      rw [collapseWsAux_cons_space_false _ hd,
        collapseWsAux_true_eq_false rest hhd,
        collapseWs_eq_self rest hrest hsp', hd']
    · rw [collapseWsAux_cons_nonspace _ false (by simpa using hd),
        collapseWs_eq_self rest hrest hsp']

theorem clean_text_chars (s : String) (hs : s ≠ "") :
    (clean_text s).data =
      (collapseWsAux false (stripChars s.data)).filter keepChar := by
  rw [clean_text, if_neg hs]
  rfl

theorem noNewlineCrTab_clean_text (s : String) :
    noNewlineCrTab (clean_text s) := by
  intro c hc
  by_cases hs : s = ""
  · rw [hs] at hc
    simp [clean_text] at hc
  · rw [clean_text_chars s hs] at hc
    have hmem := (List.mem_filter.mp hc).1
    refine ⟨?_, ?_, ?_⟩ <;>
      · intro he
        have : c = ' ' :=
          space_mem_collapseWsAux _ false c hmem (by rw [he]; decide)
        rw [he] at this
        exact absurd this (by decide)

theorem collapse_strip_keepChars (s : String) (h : spaceOrPrintable s) :
    ∀ c ∈ collapseWsAux false (stripChars s.data), keepChar c = true := by
  intro c hc
  rcases mem_collapseWsAux _ false c hc with hsp | hmem
  · rw [hsp]; decide
  · rcases h c (mem_of_mem_stripChars hmem) with hcs | hck
    · rw [space_mem_collapseWsAux _ false c hc hcs]; decide
    · exact hck

theorem clean_text_of_spaceOrPrintable (s : String)
    (h : spaceOrPrintable s) :
    clean_text s = String.mk (collapseWsAux false (stripChars s.data)) := by
  by_cases hs : s = ""
  · rw [hs]
    rfl
  · rw [clean_text, if_neg hs]
    congr 1
    exact List.filter_eq_self.mpr (collapse_strip_keepChars s h)

theorem clean_text_idem_of_spaceOrPrintable (s : String)
    (h : spaceOrPrintable s) :
    clean_text (clean_text s) = clean_text s ∧
      noDoubleSpace (clean_text s) := by
  have hform := clean_text_of_spaceOrPrintable s h
  constructor
  · rw [hform]
    by_cases hnil :
        String.mk (collapseWsAux false (stripChars s.data)) = ""
    · rw [hnil]
      rfl
    · rw [clean_text, if_neg hnil]
      have hdata : (String.mk (collapseWsAux false (stripChars s.data))).data =
          collapseWsAux false (stripChars s.data) := rfl
      rw [hdata]
      have hst : stripChars (collapseWsAux false (stripChars s.data)) =
          collapseWsAux false (stripChars s.data) :=
        stripChars_eq_self _
          (collapseWsAux_headOk _ (stripChars_headOk s.data))
          (collapseWsAux_lastOk _ false (stripChars_lastOk s.data))
      rw [hst]
      unfold collapseWs
      have hco : collapseWsAux false (collapseWsAux false (stripChars s.data)) =
          collapseWsAux false (stripChars s.data) :=
        collapseWs_eq_self _ (collapseWsAux_chain _ false)
          (fun c hc hcs => space_mem_collapseWsAux _ false c hc hcs)
      rw [hco]
      congr 1
      exact List.filter_eq_self.mpr (collapse_strip_keepChars s h)
  · rw [hform]
    unfold noDoubleSpace
    refine (collapseWsAux_chain (stripChars s.data) false).imp ?_
    intro a b hr hab
    exact hr ⟨by rw [hab.1]; decide, by rw [hab.2]; decide⟩

/-- C10 counterexample.  First two conjuncts: `clean_text` is not idempotent
and its output can contain two consecutive spaces — whitespace runs are
collapsed BEFORE non-printable characters are stripped, so deleting "é" from
"a é b" leaves "a  b", which a second application collapses further.  Third
conjunct: a title CAN contain a newline — on a page without a title tag the
placeholder `f"Page from {url}"` embeds the URL uncleaned, and the seed URL
reaches `extract_structured_content` exactly as typed on the command line
(main.py only checks its prefix), so a seed URL containing a newline puts
that newline into the title field. -/
theorem clean_text_counterexample :
    clean_text (clean_text "a é b") ≠ clean_text "a é b" ∧
    clean_text "a é b" = "a  b" ∧
    '\n' ∈ (extract_structured_content scraperW
      { titleStr := none, headingsByLevel := [], paragraphTexts := [],
        hrefs := [], metas := [], rawText := "" }
      "http://example.com/a\nb").title.data := by
  refine ⟨?_, ?_, ?_⟩
  · decide
  · decide
  · decide

/-- C10 (amended): `clean_text` output — hence `text_content`, headings,
paragraphs, and every title produced from an actual (non-empty) title tag —
never contains newline, carriage-return or tab (placeholder titles embed the
raw URL and are the one exception, see the counterexample); and on strings
whose characters are all whitespace or printable ASCII (i.e. nothing the
character filter deletes) `clean_text` is idempotent and its output has no
two consecutive spaces. -/
theorem clean_text_spec :
    (∀ s : String, noNewlineCrTab (clean_text s)) ∧
    (∀ s : String, spaceOrPrintable s →
      clean_text (clean_text s) = clean_text s ∧
        noDoubleSpace (clean_text s)) ∧
    (∀ (S : WebsiteScraper) (soup : Soup) (url : String),
      noNewlineCrTab (extract_structured_content S soup url).text_content ∧
      (∀ s : String, soup.titleStr = some s → s ≠ "" →
        noNewlineCrTab (extract_structured_content S soup url).title) ∧
      (∀ h ∈ (extract_structured_content S soup url).headings,
        noNewlineCrTab h) ∧
      (∀ p ∈ (extract_structured_content S soup url).paragraphs,
        noNewlineCrTab p)) := by
  refine ⟨noNewlineCrTab_clean_text, clean_text_idem_of_spaceOrPrintable, ?_⟩
  intro S soup url
  refine ⟨noNewlineCrTab_clean_text soup.rawText, ?_, ?_, ?_⟩
  · intro s hs hne
    have ht : (extract_structured_content S soup url).title = clean_text s := by
      show (match soup.titleStr with
        | some t => if t ≠ "" then clean_text t else "Page from " ++ url
        | none => "Page from " ++ url) = clean_text s
      rw [hs]
      show (if s ≠ "" then clean_text s else "Page from " ++ url) =
        clean_text s
      rw [if_pos hne]
    rw [ht]
    exact noNewlineCrTab_clean_text s
  · intro h hh
    have h0 : (extract_structured_content S soup url).headings =
        soup.headingsByLevel.flatMap
          (fun hs => (hs.filter (fun x => x ≠ "")).map clean_text) := rfl
    rw [h0] at hh
    obtain ⟨hs, _, hh2⟩ := List.mem_flatMap.mp hh
    obtain ⟨x, _, hx⟩ := List.mem_map.mp hh2
    rw [← hx]
    exact noNewlineCrTab_clean_text x
  · intro p hp
    have h0 : (extract_structured_content S soup url).paragraphs =
        (soup.paragraphTexts.map clean_text).filter
          (fun t => t ≠ "" && 10 < t.length) := rfl
    rw [h0] at hp
    obtain ⟨x, _, hx⟩ := List.mem_map.mp (List.mem_filter.mp hp).1
    rw [← hx]
    exact noNewlineCrTab_clean_text x

/-- C10 witness: at "x \t y" (all characters whitespace or printable) the
idempotence and double-space-freedom instances hold. -/
theorem clean_text_spec_witness :
    spaceOrPrintable "x \t y" ∧
    (clean_text (clean_text "x \t y") = clean_text "x \t y" ∧
      noDoubleSpace (clean_text "x \t y")) :=
  ⟨by decide, clean_text_spec.2.1 "x \t y" (by decide)⟩

/-! ## Helper lemmas: summarization (C5) -/

theorem foldl_dict_none (x : String) :
    ∀ (l : List (Nat × String)) (acc : ℚ), (∀ p ∈ l, p.2 ≠ x) →
      l.foldl (fun acc p => if p.2 == x then (p.1 : ℚ) else acc) acc = acc
  | [], _, _ => rfl
  | p :: l, acc, h => by
    simp only [List.foldl_cons]
    have hp : (p.2 == x) = false :=
      beq_eq_false_iff_ne.mpr (h p (List.mem_cons_self p l))
    rw [hp]
    simp only [Bool.false_eq_true, if_false]
    exact foldl_dict_none x l acc (fun q hq => h q (List.mem_cons_of_mem p hq))

theorem foldl_dict_mem (x : String) (i : Nat) :
    ∀ (l : List (Nat × String)) (acc : ℚ),
      (l.map Prod.snd).Nodup → (i, x) ∈ l →
      l.foldl (fun acc p => if p.2 == x then (p.1 : ℚ) else acc) acc = (i : ℚ)
  | [], _, _, hm => absurd hm (List.not_mem_nil _)
  | p :: l, acc, hnd, hm => by
    simp only [List.map_cons, List.nodup_cons] at hnd
    simp only [List.foldl_cons]
    rcases List.mem_cons.mp hm with he | hm'
    · subst he
      rw [show ((((i, x) : Nat × String).2 == x)) = true from
        beq_iff_eq.mpr rfl]
      simp only [if_true]
      refine foldl_dict_none x l _ ?_
      intro q hq he2
      apply hnd.1
      show x ∈ l.map Prod.snd
      rw [← he2]
      exact List.mem_map_of_mem Prod.snd hq
    · exact foldl_dict_mem x i l _ hnd.2 hm'

theorem indexOf_eq_of_getElem? (l : List String) (h : l.Nodup) (i : Nat)
    (a : String) (hi : l[i]? = some a) : l.indexOf a = i := by
  have hlt : i < l.length := (List.getElem?_eq_some_iff.mp hi).1
  have hg : l[i] = a := by
    have h2 := List.getElem?_eq_getElem hlt
    rw [h2] at hi
    exact Option.some.inj hi
  have h3 := List.get_indexOf h ⟨i, hlt⟩
  simpa [hg] using h3

theorem sentenceDictGet_eq_indexOf (L : List String) (hnd : L.Nodup)
    (x : String) (hx : x ∈ L) :
    sentenceDictGet L x = (L.indexOf x : ℚ) := by
  unfold sentenceDictGet
  refine foldl_dict_mem x (L.indexOf x) L.enum 999 ?_ ?_
  · rw [List.enum_map_snd]
    exact hnd
  · rw [List.mem_enum_iff_getElem?]
    exact List.getElem?_indexOf hx

theorem indexOf_cons_ne {a b : String} (l : List String) (h : b ≠ a) :
    (a :: l).indexOf b = l.indexOf b + 1 := by
  rw [List.indexOf_cons]
  have hb : (a == b) = false := beq_eq_false_iff_ne.mpr (Ne.symm h)
  rw [hb]
  rfl

theorem sublist_of_indexOf_lt :
    ∀ (L sel : List String), (∀ s ∈ sel, s ∈ L) →
      sel.Pairwise (fun a b => L.indexOf a < L.indexOf b) → sel.Sublist L
  | _, [], _, _ => List.nil_sublist _
  | [], s :: sel, hmem, _ =>
    absurd (hmem s (List.mem_cons_self s sel)) (List.not_mem_nil s)
  | a :: L, s :: sel, hmem, hpw => by
    obtain ⟨hhead, htail⟩ := List.pairwise_cons.mp hpw
    by_cases hsa : s = a
    · subst hsa
      refine List.Sublist.cons₂ s ?_
      have hne : ∀ t ∈ sel, t ≠ s := by
        intro t ht he
        have hlt := hhead t ht
        rw [he] at hlt
        exact Nat.lt_irrefl _ hlt
      have hmem' : ∀ t ∈ sel, t ∈ L := by
        intro t ht
        rcases List.mem_cons.mp (hmem t (List.mem_cons_of_mem s ht)) with he | h
        · exact absurd he (hne t ht)
        · exact h
      refine sublist_of_indexOf_lt L sel hmem' ?_
      refine htail.imp_of_mem ?_
      intro t u htm hum hlt
      rw [indexOf_cons_ne L (hne t htm), indexOf_cons_ne L (hne u hum)] at hlt
      exact Nat.lt_of_succ_lt_succ hlt
    · have hne : ∀ t ∈ s :: sel, t ≠ a := by
        intro t ht he
        rcases List.mem_cons.mp ht with rfl | htm
        · exact hsa he
        · have hlt := hhead t htm
          rw [he, List.indexOf_cons_self] at hlt
          exact Nat.not_lt_zero _ hlt
      refine List.Sublist.cons a ?_
      have hmem' : ∀ t ∈ s :: sel, t ∈ L := by
        intro t ht
        rcases List.mem_cons.mp (hmem t ht) with he | h
        · exact absurd he (hne t ht)
        · exact h
      refine sublist_of_indexOf_lt L (s :: sel) hmem' ?_
      refine hpw.imp_of_mem ?_
      intro t u htm hum hlt
      rw [indexOf_cons_ne L (hne t htm), indexOf_cons_ne L (hne u hum)] at hlt
      exact Nat.lt_of_succ_lt_succ hlt
termination_by L sel _ _ => (L.length, sel.length)

theorem summarySelection_props (N : NLP) (L : List String) (k : Nat)
    (hnd : L.Nodup) (hgt : k < L.length) :
    (summarySelection N L k).length = k ∧
    (summarySelection N L k).Sublist L ∧
    ∀ a ∈ summarySelection N L k, ∀ b ∈ L, b ∉ summarySelection N L k →
      sentenceScoreAt N (L.indexOf b) b ≤
        sentenceScoreAt N (L.indexOf a) a := by
  have e1 : summarySelection N L k =
      pySortAscBy (fun s => sentenceDictGet L s)
        (((pySortDescBy (fun q : ℚ × String => q.1)
          (L.enum.map (fun p => (sentenceScoreAt N p.1 p.2, p.2)))).take k).map
          (fun q : ℚ × String => q.2)) := rfl
  rw [e1]
  set scored := L.enum.map (fun p => (sentenceScoreAt N p.1 p.2, p.2))
    with hscored
  set sorted := pySortDescBy (fun q : ℚ × String => q.1) scored with hsorted
  set top := (sorted.take k).map (fun q : ℚ × String => q.2) with htop
  set sel := pySortAscBy (fun s => sentenceDictGet L s) top with hsel
  have hperm1 : List.Perm sorted scored := pySortDescBy_perm _ _
  have hperm2 : List.Perm sel top := pySortAscBy_perm _ _
  have hsnd : scored.map (fun q : ℚ × String => q.2) = L := by
    rw [hscored, List.map_map]
    exact List.enum_map_snd L
  have hlenscored : scored.length = L.length := by
    rw [hscored, List.length_map, List.enum_length]
  have hlen : sel.length = k := by
    rw [hperm2.length_eq, htop, List.length_map, List.length_take,
      hperm1.length_eq, hlenscored]
    exact min_eq_left (Nat.le_of_lt hgt)
  have hsortedmapnd : (sorted.map (fun q : ℚ × String => q.2)).Nodup := by
    have hp : List.Perm (sorted.map (fun q : ℚ × String => q.2))
        (scored.map (fun q : ℚ × String => q.2)) := hperm1.map _
    rw [hsnd] at hp
    exact hp.nodup_iff.mpr hnd
  have htopnd : top.Nodup := by
    rw [htop, List.map_take]
    exact List.Nodup.sublist (List.take_sublist k _) hsortedmapnd
  have hselnd : sel.Nodup := hperm2.nodup_iff.mpr htopnd
  have hq_form : ∀ q ∈ scored,
      q.2 ∈ L ∧ q = (sentenceScoreAt N (L.indexOf q.2) q.2, q.2) := by
    intro q hq
    rw [hscored] at hq
    obtain ⟨p, hp, hfp⟩ := List.mem_map.mp hq
    have hget : L[p.1]? = some p.2 := List.mem_enum_iff_getElem?.mp hp
    have hmem : p.2 ∈ L := List.getElem?_mem hget
    have hidx : L.indexOf p.2 = p.1 := indexOf_eq_of_getElem? L hnd p.1 p.2 hget
    subst hfp
    exact ⟨hmem, by rw [hidx]⟩
  have hselmem : ∀ x ∈ sel, x ∈ L := by
    intro x hx
    have hxt : x ∈ top := hperm2.mem_iff.mp hx
    rw [htop] at hxt
    obtain ⟨q, hq, hq2⟩ := List.mem_map.mp hxt
    have hqs : q ∈ scored :=
      hperm1.mem_iff.mp ((List.take_sublist k sorted).subset hq)
    rw [← hq2]
    exact (hq_form q hqs).1
  have hkey : ∀ x ∈ sel, sentenceDictGet L x = (L.indexOf x : ℚ) :=
    fun x hx => sentenceDictGet_eq_indexOf L hnd x (hselmem x hx)
  have hpwidx : sel.Pairwise (fun a b => L.indexOf a < L.indexOf b) := by
    have hsorted2 : sel.Pairwise
        (fun a b => sentenceDictGet L a ≤ sentenceDictGet L b) :=
      pySortAscBy_sorted _ top
    have hne : sel.Pairwise (fun a b => a ≠ b) := hselnd
    refine (hsorted2.and hne).imp_of_mem ?_
    intro a b ha hb hr
    have h1 : (L.indexOf a : ℚ) ≤ (L.indexOf b : ℚ) := by
      rw [← hkey a ha, ← hkey b hb]
      exact hr.1
    have h2 : L.indexOf a ≤ L.indexOf b := by exact_mod_cast h1
    have h3 : L.indexOf a ≠ L.indexOf b := fun he =>
      hr.2 ((List.indexOf_inj (hselmem a ha) (hselmem b hb)).mp he)
    exact lt_of_le_of_ne h2 h3
  refine ⟨hlen, sublist_of_indexOf_lt L sel hselmem hpwidx, ?_⟩
  intro a ha b hb hbn
  have hat : a ∈ top := hperm2.mem_iff.mp ha
  rw [htop] at hat
  obtain ⟨qa, hqa, hqa2⟩ := List.mem_map.mp hat
  have hqas : qa ∈ scored :=
    hperm1.mem_iff.mp ((List.take_sublist k sorted).subset hqa)
  have hqaf := (hq_form qa hqas).2
  have hqbL : ((L.indexOf b, b) : Nat × String) ∈ L.enum := by
    rw [List.mem_enum_iff_getElem?]
    exact List.getElem?_indexOf hb
  have hqbs : ((sentenceScoreAt N (L.indexOf b) b, b) : ℚ × String) ∈ scored := by
    rw [hscored]
    exact List.mem_map.mpr ⟨(L.indexOf b, b), hqbL, rfl⟩
  have hqbsorted : ((sentenceScoreAt N (L.indexOf b) b, b) : ℚ × String) ∈ sorted :=
    hperm1.mem_iff.mpr hqbs
  have hqbdrop : ((sentenceScoreAt N (L.indexOf b) b, b) : ℚ × String) ∈
      sorted.drop k := by
    have hsplit : sorted.take k ++ sorted.drop k = sorted :=
      List.take_append_drop k sorted
    rw [← hsplit] at hqbsorted
    rcases List.mem_append.mp hqbsorted with hin | hin
    · exfalso
      apply hbn
      apply hperm2.mem_iff.mpr
      rw [htop]
      exact List.mem_map.mpr ⟨_, hin, rfl⟩
    · exact hin
  have hcross := pairwise_take_drop
    (pySortDescBy_sorted (fun q : ℚ × String => q.1) scored) k qa hqa _ hqbdrop
  have hqa1 : qa.1 = sentenceScoreAt N (L.indexOf a) a := by
    have : qa.1 = sentenceScoreAt N (L.indexOf qa.2) qa.2 := by
      conv_lhs => rw [hqaf]
    rw [this, hqa2]
  dsimp only at hcross
  rw [hqa1] at hcross
  exact hcross

/-- C5 (amended, for documents whose extracted sentences are pairwise
distinct): if there are at most `max_sentences` sentences, `generate_summary`
joins exactly those sentences in original order; otherwise it joins exactly
`max_sentences` sentences drawn from the extracted sequence, emitted in
original document order (a sublist), and every selected sentence's score
(positionWeight 1/(index+1) + lengthWeight min(wordCount/20, 1) +
keywordWeight keywordsInSentence/10) is at least every unselected
sentence's score. -/
theorem generate_summary_spec (N : NLP) (text : String) (max_sentences : Nat)
    (hnd : (extract_sentences N text).Nodup) :
    ((extract_sentences N text).length ≤ max_sentences →
      generate_summary N text max_sentences =
        pyJoin " " (extract_sentences N text)) ∧
    (max_sentences < (extract_sentences N text).length →
      ∃ sel : List String,
        generate_summary N text max_sentences = pyJoin " " sel ∧
        sel.length = max_sentences ∧
        sel.Sublist (extract_sentences N text) ∧
        ∀ a ∈ sel, ∀ b ∈ extract_sentences N text, b ∉ sel →
          sentenceScoreAt N ((extract_sentences N text).indexOf b) b ≤
            sentenceScoreAt N ((extract_sentences N text).indexOf a) a) := by
  constructor
  · intro hle
    unfold generate_summary
    rw [if_pos hle]
  · intro hgt
    obtain ⟨hlen, hsub, hdom⟩ :=
      summarySelection_props N (extract_sentences N text) max_sentences hnd hgt
    refine ⟨summarySelection N (extract_sentences N text) max_sentences,
      ?_, hlen, hsub, hdom⟩
    unfold generate_summary
    rw [if_neg (not_le.mpr hgt)]

/-- C4 witness: at the two-page fixture corpus and the query "tiger", the
page whose title and keywords mention the query is the single result, and
the claim instances evaluate on it. -/
theorem search_kb_witness :
    ((1, pcW, (5 : ℚ)) ∈ search_kb ekbW "tiger") ∧ (0 : ℚ) < (1, pcW, (5 : ℚ)).2.2 :=
  ⟨by simp [search_kb_eval],
    (search_kb_spec ekbW "tiger").2.2.1 (1, pcW, 5) (by simp [search_kb_eval])⟩


theorem score_dup0 : sentenceScoreAt nlpDup 0 "alpha bravo charlie delta echoes" = 7/4 := by
  have h1 : (pySplit "alpha bravo charlie delta echoes").length = 5 := by decide
  have h2 : (extract_keywords nlpDup "alpha bravo charlie delta echoes" 5).length = 5 := by decide
  unfold sentenceScoreAt
  rw [h1, h2]
  rw [min_eq_left (by norm_num)]
  norm_num

theorem score_dup1 : sentenceScoreAt nlpDup 1 "foxtrot golfer hotel india juliet" = 5/4 := by
  have h1 : (pySplit "foxtrot golfer hotel india juliet").length = 5 := by decide
  have h2 : (extract_keywords nlpDup "foxtrot golfer hotel india juliet" 5).length = 5 := by decide
  unfold sentenceScoreAt
  rw [h1, h2]
  rw [min_eq_left (by norm_num)]
  norm_num

theorem score_dup2 : sentenceScoreAt nlpDup 2 "alpha bravo charlie delta echoes" = 13/12 := by
  have h1 : (pySplit "alpha bravo charlie delta echoes").length = 5 := by decide
  have h2 : (extract_keywords nlpDup "alpha bravo charlie delta echoes" 5).length = 5 := by decide
  unfold sentenceScoreAt
  rw [h1, h2]
  rw [min_eq_left (by norm_num)]
  norm_num

theorem score_dup3 : sentenceScoreAt nlpDup 3 "foxtrot golfer hotel india juliet" = 1 := by
  have h1 : (pySplit "foxtrot golfer hotel india juliet").length = 5 := by decide
  have h2 : (extract_keywords nlpDup "foxtrot golfer hotel india juliet" 5).length = 5 := by decide
  unfold sentenceScoreAt
  rw [h1, h2]
  rw [min_eq_left (by norm_num)]
  norm_num

theorem score_dup4 : sentenceScoreAt nlpDup 4 "kilo lima mike november oscar" = 19/20 := by
  have h1 : (pySplit "kilo lima mike november oscar").length = 5 := by decide
  have h2 : (extract_keywords nlpDup "kilo lima mike november oscar" 5).length = 5 := by decide
  unfold sentenceScoreAt
  rw [h1, h2]
  rw [min_eq_left (by norm_num)]
  norm_num

theorem summarySelection_dup :
    summarySelection nlpDup (extract_sentences nlpDup "x") 4 =
      ["alpha bravo charlie delta echoes", "alpha bravo charlie delta echoes", "foxtrot golfer hotel india juliet", "foxtrot golfer hotel india juliet"] := by
  have henum : (extract_sentences nlpDup "x").enum =
      [(0, "alpha bravo charlie delta echoes"), (1, "foxtrot golfer hotel india juliet"), (2, "alpha bravo charlie delta echoes"), (3, "foxtrot golfer hotel india juliet"), (4, "kilo lima mike november oscar")] := by decide
  have e1 : summarySelection nlpDup (extract_sentences nlpDup "x") 4 =
      pySortAscBy (fun s => sentenceDictGet (extract_sentences nlpDup "x") s)
        (((pySortDescBy (fun q : ℚ × String => q.1)
          ((extract_sentences nlpDup "x").enum.map
            (fun p => (sentenceScoreAt nlpDup p.1 p.2, p.2)))).take 4).map
          (fun q : ℚ × String => q.2)) := rfl
  rw [e1, henum]
  simp only [List.map_cons, List.map_nil]
  rw [score_dup0, score_dup1, score_dup2, score_dup3, score_dup4]
  have hsorted : pySortDescBy (fun q : ℚ × String => q.1)
      [(7/4, "alpha bravo charlie delta echoes"), (5/4, "foxtrot golfer hotel india juliet"), (13/12, "alpha bravo charlie delta echoes"), (1, "foxtrot golfer hotel india juliet"), (19/20, "kilo lima mike november oscar")] =
      [(7/4, "alpha bravo charlie delta echoes"), (5/4, "foxtrot golfer hotel india juliet"), (13/12, "alpha bravo charlie delta echoes"), (1, "foxtrot golfer hotel india juliet"), (19/20, "kilo lima mike november oscar")] := by
    norm_num [pySortDescBy, insDesc]
  rw [hsorted]
  have hdA : sentenceDictGet (extract_sentences nlpDup "x") "alpha bravo charlie delta echoes" = 2 := by decide
  have hdB : sentenceDictGet (extract_sentences nlpDup "x") "foxtrot golfer hotel india juliet" = 3 := by decide
  show pySortAscBy _ ["alpha bravo charlie delta echoes", "foxtrot golfer hotel india juliet", "alpha bravo charlie delta echoes", "foxtrot golfer hotel india juliet"] = _
  norm_num [pySortAscBy, insAsc, hdA, hdB]


theorem generate_summary_counterexample :
    4 < (extract_sentences nlpDup "x").length ∧
    ¬∃ sel : List String,
      generate_summary nlpDup "x" 4 = pyJoin " " sel ∧
      sel.length = 4 ∧ sel.Sublist (extract_sentences nlpDup "x") := by
  have hsum : generate_summary nlpDup "x" 4 =
      pyJoin " " ["alpha bravo charlie delta echoes", "alpha bravo charlie delta echoes", "foxtrot golfer hotel india juliet", "foxtrot golfer hotel india juliet"] := by
    unfold generate_summary
    rw [if_neg (by decide), summarySelection_dup]
  refine ⟨by decide, ?_⟩
  rintro ⟨sel, hjoin, hlen, hsub⟩
  have hmem : sel ∈ (extract_sentences nlpDup "x").sublists :=
    List.mem_sublists.mpr hsub
  have hall : ∀ t ∈ (extract_sentences nlpDup "x").sublists,
      ¬(t.length = 4 ∧ pyJoin " " ["alpha bravo charlie delta echoes", "alpha bravo charlie delta echoes", "foxtrot golfer hotel india juliet", "foxtrot golfer hotel india juliet"] = pyJoin " " t) := by
    decide
  exact hall sel hmem ⟨hlen, hsum.symm.trans hjoin⟩

theorem generate_summary_spec_witness :
    (extract_sentences nlpFour "x").Nodup ∧
    (((extract_sentences nlpFour "x").length ≤ 2 →
      generate_summary nlpFour "x" 2 =
        pyJoin " " (extract_sentences nlpFour "x")) ∧
    (2 < (extract_sentences nlpFour "x").length →
      ∃ sel : List String,
        generate_summary nlpFour "x" 2 = pyJoin " " sel ∧
        sel.length = 2 ∧
        sel.Sublist (extract_sentences nlpFour "x") ∧
        ∀ a ∈ sel, ∀ b ∈ extract_sentences nlpFour "x", b ∉ sel →
          sentenceScoreAt nlpFour
              ((extract_sentences nlpFour "x").indexOf b) b ≤
            sentenceScoreAt nlpFour
              ((extract_sentences nlpFour "x").indexOf a) a)) :=
  ⟨by decide, generate_summary_spec nlpFour "x" 2 (by decide)⟩

end WebScraping
